import Mathlib

/-!
# prdeps: printing the dependency graph of a Go package

A shallow embedding of `main.go` (package `main` of `davecheney/prdeps`).

Modelling decisions, each taken from the source:

* Go strings are Lean `String`s.  `sort.Strings` orders by Go's `<` on strings, which is
  bytewise lexicographic; on UTF-8 text this is the lexicographic order of the code points,
  which is what `strLe` compares.
* The package-level variables `pkgcache`, `printcache` and the bytes written to `os.Stdout`
  are fields of an explicit `State` threaded through every function.  The flag variables
  `stdlib`, `testimports`, `xtestimports`, `maxdepth` are written once by `main` before any
  traversal and are collected in `Flags`.
* `build.Import(importpath, "", 0)` and `(*template.Template).Execute` belong to the Go
  standard library.  They are parameters: an `Importer` maps an import path to a package or
  to an error message, a `Template` maps a package and an indent string to the bytes that
  `Execute` leaves in the buffer.
* `build.Import` returns each of the lists `Imports`, `TestImports` and `XTestImports` sorted
  and without repeated entries.  An `Importer` is an arbitrary function; a theorem that needs
  this property of the lists says so in a hypothesis.
* `pkgcache` stores `*build.Package` pointers.  Every pointer it holds was returned by one
  call of `build.Import` and is stored under one key, so each entry owns its package object and
  the map is modelled as a map to package values.  `sort.Strings(deps)` sorts the slice of the
  cached object in place; the model writes the sorted slice back into the entry that holds the
  object (`slot`).
* `log.Fatalf` and a run-time panic end the process; they are the outcomes `fatal` and `panic`,
  which carry the state reached, so that the output written so far stays observable.
* Go's `int` is modelled by `Int`.  `depth` starts at `0` in `main` and grows by one per nested
  call, so neither `depth++` nor `n*2` can leave the 64-bit range in a run of the program.
* `getGoSubpath` calls `filepath.Rel` of the standard library.  The function is a parameter of
  `getGoSubpath`; `filepathRel` is a model of it on Unix paths, working on the elements of the
  cleaned paths, used where a claim speaks of directories.
* `main` is modelled after `flag.Parse`: the flag values, the positional arguments and what
  `os.Getwd`, `build.Default.GOPATH`, `filepath.Join` and the template parser give are inputs
  (`Sys`).  `log.Printf` and `flag.Usage()` write to standard error and return.
* `State.trace` is a ghost log: it records, in program order, the calls the claims speak
  about.  No function ever reads it.
-/

namespace Prdeps

/-- The fields of `build.Package` that the program reads, and `Dir` and `Name` standing for the
remaining fields, which only a template can read. -/
structure Package where
  ImportPath : String
  Goroot : Bool
  Imports : List String
  TestImports : List String
  XTestImports : List String
  Dir : String
  Name : String
  deriving DecidableEq, Inhabited

/-- The flag variables `stdlib`, `testimports`, `xtestimports`, `maxdepth` (main.go 37-42). -/
structure Flags where
  stdlib : Bool
  testimports : Bool
  xtestimports : Bool
  maxdepth : Int
  deriving DecidableEq, Inhabited

/-- The external resolver `build.Import(importpath, "", 0)`: a package, or the error text. -/
abbrev Importer := String → Except String Package

/-- A parsed template: `t pkg indent` is what `t.Execute` writes into the buffer for the value
`struct { *build.Package; Indent string }`. -/
abbrev Template := Package → String → String

/-- Ghost events, logged in program order. -/
inductive Event where
  /-- Logged when `printpkg(importpath, t, depth)` calls `loadpkg(importpath)` (main.go 70). -/
  | load (importpath : String) (depth : Int)
  /-- Logged when `loadpkg` calls `build.Import(importpath, "", 0)` (main.go 54). -/
  | resolve (importpath : String)
  /-- Logged when `printpkg` calls `t.Execute` for the key `(depth, path)` (main.go 84). -/
  | execute (depth : Int) (path : String)
  /-- Logged when `printpkg(importpath, t, depth)` writes `out` to `os.Stdout` for the key
  `(depth, path)` (main.go 81 and 89). -/
  | write (importpath : String) (depth : Int) (path : String) (out : String)
  deriving DecidableEq, Inhabited

/-- The mutable state of the process. -/
structure State where
  /-- The map `var pkgcache = make(map[string]*build.Package)`. -/
  pkgcache : String → Option Package
  /-- The map `var printcache = make(map[struct{int; string}]string)`. -/
  printcache : Int × String → Option String
  /-- Everything written to `os.Stdout` so far. -/
  stdout : String
  /-- The ghost log. -/
  trace : List Event

/-- The state at process start: both maps empty, nothing written. -/
def State.init : State :=
  { pkgcache := fun _ => none, printcache := fun _ => none, stdout := "", trace := [] }

/-- How a call ends: it returns `a`, or `log.Fatalf("could not locate %q: %v", importpath, err)`
ends the process, or a run-time panic does. -/
inductive Outcome (α : Type) where
  | ok (a : α) (s : State)
  | fatal (importpath : String) (err : String) (s : State)
  | panic (s : State)

/-- The state in which a call ended. -/
def Outcome.final {α : Type} : Outcome α → State
  | .ok _ s => s
  | .fatal _ _ s => s
  | .panic s => s

/-- Go's `a <= b` on strings. -/
def strLe (a b : String) : Prop := a.data ≤ b.data

instance strLe.decidable : DecidableRel strLe :=
  fun a b => inferInstanceAs (Decidable (a.data ≤ b.data))

/-- Result of `sort.Strings`: the ascending rearrangement of the slice. -/
def sortStrings (l : List String) : List String := List.insertionSort strLe l

/-- The function `spaces` (main.go 44-46): `strings.Repeat(" ", n*2)`, which panics on a negative
count. -/
def spaces (n : Int) : Option String :=
  if n * 2 < 0 then none else some (String.mk (List.replicate (n * 2).toNat ' '))

/-- The function `loadpkg` (main.go 48-61).  The result is the package together with the `pkgcache` key under
which the returned pointer is stored. -/
def loadpkg (imp : Importer) (importpath : String) (s : State) : Outcome (String × Package) :=
  match s.pkgcache importpath with
  | some pkg => .ok (importpath, pkg) s
  | none =>
    let s1 : State := { s with trace := s.trace ++ [Event.resolve importpath] }
    match imp importpath with
    | .error err => .fatal importpath err s1
    | .ok pkg =>
      .ok (pkg.ImportPath, pkg)
        { s1 with pkgcache := Function.update s1.pkgcache pkg.ImportPath (some pkg) }

/-- Lines 76-91 of `printpkg`: replay the cached block, or execute the template, write the block
and cache it. -/
def render (t : Template) (importpath : String) (pkg : Package) (depth : Int) (s : State) :
    Outcome Unit :=
  match s.printcache (depth, pkg.ImportPath) with
  | some out =>
    .ok () { s with
      stdout := s.stdout ++ out
      trace := s.trace ++ [Event.write importpath depth pkg.ImportPath out] }
  | none =>
    match spaces depth with
    | none => .panic s
    | some indent =>
      let out := t pkg indent
      .ok () { s with
        printcache := Function.update s.printcache (depth, pkg.ImportPath) (some out)
        stdout := s.stdout ++ out
        trace := s.trace ++
          [Event.execute depth pkg.ImportPath, Event.write importpath depth pkg.ImportPath out] }

/-- Lines 93-103 of `printpkg`: the slice chosen by the `switch`, sorted, and the package object
after `sort.Strings` has sorted that slice in place. -/
def sortdeps (fl : Flags) (depth : Int) (pkg : Package) : List String × Package :=
  if fl.testimports && depth == 0 then
    (sortStrings pkg.TestImports, { pkg with TestImports := sortStrings pkg.TestImports })
  else if fl.xtestimports && depth == 0 then
    (sortStrings pkg.XTestImports, { pkg with XTestImports := sortStrings pkg.XTestImports })
  else
    (sortStrings pkg.Imports, { pkg with Imports := sortStrings pkg.Imports })

/-- A `for _, x := range xs { f(x) }` loop whose body can end the process. -/
def forEach (f : String → State → Outcome Unit) : List String → State → Outcome Unit
  | [], s => .ok () s
  | x :: xs, s =>
    match f x s with
    | .ok _ s1 => forEach f xs s1
    | .fatal p e s1 => .fatal p e s1
    | .panic s1 => .panic s1

/-- The function `printpkg` (main.go 63-112). -/
def printpkg (fl : Flags) (imp : Importer) (t : Template) (importpath : String) (depth : Int)
    (s : State) : Outcome Unit :=
  if importpath = "C" ∨ importpath = "unsafe" then .ok () s
  else
    match loadpkg imp importpath { s with trace := s.trace ++ [Event.load importpath depth] } with
    | .fatal p e s1 => .fatal p e s1
    | .panic s1 => .panic s1
    | .ok (slot, pkg) s1 =>
      if pkg.Goroot && !fl.stdlib then .ok () s1
      else
        match render t importpath pkg depth s1 with
        | .fatal p e s2 => .fatal p e s2
        | .panic s2 => .panic s2
        | .ok _ s2 =>
          let s3 : State :=
            { s2 with pkgcache := Function.update s2.pkgcache slot (some (sortdeps fl depth pkg).2) }
          if depth + 1 > fl.maxdepth then .ok () s3
          else forEach (fun dep st => printpkg fl imp t dep (depth + 1) st) (sortdeps fl depth pkg).1 s3
termination_by (fl.maxdepth - depth).toNat
decreasing_by
  simp_wf
  omega

/-- The loop of `main` over its arguments (main.go 162-164). -/
def mainLoop (fl : Flags) (imp : Importer) (t : Template) (args : List String) (s : State) :
    Outcome Unit :=
  forEach (fun pkg st => printpkg fl imp t pkg 0 st) args s

/-- What `Execute` produces for the default template `{{.Indent}}{{.ImportPath}}:` followed by
the newline that `main` appends. -/
def defaultTemplate : Template := fun pkg indent => indent ++ pkg.ImportPath ++ ":\n"

/-- The external `resolve` events of a log, in order. -/
def resolved : List Event → List String
  | [] => []
  | Event.resolve p :: es => p :: resolved es
  | _ :: es => resolved es

/-- The outcome of a call, its return value dropped. -/
def Outcome.void {α : Type} : Outcome α → Outcome Unit
  | .ok _ s => .ok () s
  | .fatal p e s => .fatal p e s
  | .panic s => .panic s

/-- The events a call logged: the log it ended with, without the log it started from. -/
def newEvents {α : Type} (s : State) (o : Outcome α) : List Event :=
  o.final.trace.drop s.trace.length

/-- The bytes a call wrote: `os.Stdout` as it ended, without what had been written before. -/
def appended {α : Type} (s : State) (o : Outcome α) : String :=
  String.mk (o.final.stdout.data.drop s.stdout.data.length)

/-- The depth an event was logged at; `resolve` events carry none. -/
def Event.depth? : Event → Option Int
  | .load _ d => some d
  | .resolve _ => none
  | .execute d _ => some d
  | .write _ d _ _ => some d

/-- The concatenation of the blocks of the `write` events of a log. -/
def written : List Event → String
  | [] => ""
  | Event.write _ _ _ out :: es => out ++ written es
  | _ :: es => written es

/-- The import paths of the `load` events of a log, in order. -/
def loaded : List Event → List String
  | [] => []
  | Event.load p _ :: es => p :: loaded es
  | _ :: es => loaded es

/-- The pseudo-packages of the `switch` at main.go 64-68. -/
def fake (importpath : String) : Bool := importpath == "C" || importpath == "unsafe"

/-- The import paths of the `load` events at depth `d`, in order. -/
def loadsAt (d : Int) : List Event → List String
  | [] => []
  | Event.load p k :: es => if k = d then p :: loadsAt d es else loadsAt d es
  | _ :: es => loadsAt d es

/-- The import paths of the blocks written at depth `d`, in order. -/
def blocksAt (d : Int) : List Event → List String
  | [] => []
  | Event.write p k _ _ :: es => if k = d then p :: blocksAt d es else blocksAt d es
  | _ :: es => blocksAt d es

/-- The flags with recursion cut off below depth `d`. -/
def Flags.upTo (fl : Flags) (d : Int) : Flags := { fl with maxdepth := d }

/-- Go's `a < b` on strings. -/
def strLt (a b : String) : Prop := a.data < b.data

/-- The output of visiting `xs` in order at depth `d`, each dependency from the state the one
before it left; nothing more is written once a visit has ended the process. -/
def childrenOut (fl : Flags) (imp : Importer) (t : Template) (d : Int) :
    List String → State → String
  | [], _ => ""
  | x :: xs, s =>
    appended s (printpkg fl imp t x d s) ++
      match printpkg fl imp t x d s with
      | .ok _ s1 => childrenOut fl imp t d xs s1
      | _ => ""

/-- Fail-stop shape of a log: a call that ends in `fatal` has the failed resolution as its last
event, and every resolution before it succeeded; any other call logged only resolutions that
succeeded. -/
def failStop (imp : Importer) (new : List Event) : Outcome Unit → Prop
  | .fatal p e _ => imp p = .error e ∧
      ∃ pre, new = pre ++ [Event.resolve p] ∧ ∀ q ∈ resolved pre, ∃ pkg, imp q = .ok pkg
  | _ => ∀ q ∈ resolved new, ∃ pkg, imp q = .ok pkg

/-- What a run from `s` to `s'` with log `new` does to `printcache`. -/
def cacheInv (s : State) (new : List Event) (s' : State) : Prop :=
  (∀ k v, s.printcache k = some v → s'.printcache k = some v) ∧
  (∀ i d p out, Event.write i d p out ∈ new → s'.printcache (d, p) = some out) ∧
  (∀ d p, Event.execute d p ∈ new → s.printcache (d, p) = none) ∧
  (∀ d p, Event.execute d p ∈ new → s'.printcache (d, p) ≠ none) ∧
  (∀ d p, new.count (Event.execute d p) ≤ 1)

/-- A package outside GOROOT with the given direct imports and no test imports. -/
def mkpkg (path : String) (imports : List String) : Package :=
  { ImportPath := path, Goroot := false, Imports := imports, TestImports := [],
    XTestImports := [], Dir := "", Name := path }

/-- The resolver of the end-to-end example: `A` imports `C` and `B`. -/
def c1Importer : Importer := fun p =>
  if p = "A" then .ok (mkpkg "A" ["C", "B"])
  else if p = "B" then .ok (mkpkg "B" [])
  else if p = "C" then .ok (mkpkg "C" [])
  else .error "cannot find package"

/-- Flags of the end-to-end example: `-d 1`, everything else at its default. -/
def c1Flags : Flags := { stdlib := false, testimports := false, xtestimports := false, maxdepth := 1 }

/-- Flags with a negative depth bound: `-d -1`. -/
def c3Flags : Flags := { stdlib := false, testimports := false, xtestimports := false, maxdepth := -1 }

/-- A package inside GOROOT. -/
def c4Pkg : Package :=
  { ImportPath := "fmt", Goroot := true, Imports := ["errors", "io"], TestImports := [],
    XTestImports := [], Dir := "", Name := "fmt" }

/-- A resolver that knows the GOROOT package `fmt` only. -/
def c4Importer : Importer := fun p =>
  if p = "fmt" then .ok c4Pkg else .error "cannot find package"

/-- A resolver in which `A` imports `B` and the unknown `Z`. -/
def c8Importer : Importer := fun p =>
  if p = "A" then .ok (mkpkg "A" ["Z", "B"])
  else if p = "B" then .ok (mkpkg "B" [])
  else if p = "D" then .ok (mkpkg "D" [])
  else .error "cannot find package"

/-- A resolver in which `A` imports `D` and `B`. -/
def c2Importer : Importer := fun p =>
  if p = "A" then .ok (mkpkg "A" ["D", "B"])
  else if p = "B" then .ok (mkpkg "B" [])
  else if p = "D" then .ok (mkpkg "D" [])
  else .error "cannot find package"

/-- A package with different imports, test imports and external test imports. -/
def c5Pkg : Package :=
  { ImportPath := "A", Goroot := false, Imports := ["fmt", "B"], TestImports := ["testing", "D"],
    XTestImports := ["E"], Dir := "", Name := "A" }

/-- A resolver around `c5Pkg`. -/
def c5Importer : Importer := fun p =>
  if p = "A" then .ok c5Pkg
  else if p = "B" then .ok (mkpkg "B" [])
  else if p = "D" then .ok (mkpkg "D" [])
  else if p = "E" then .ok (mkpkg "E" [])
  else if p = "testing" then .ok (mkpkg "testing" [])
  else .error "cannot find package"

/-- Flags `-t -T -d 1`. -/
def c5Flags : Flags := { stdlib := false, testimports := true, xtestimports := true, maxdepth := 1 }

/-- A state in which the block `"cached\n"` is cached for `B` at depth `0`. -/
def c9State : State :=
  { State.init with printcache := Function.update State.init.printcache (0, "B") (some "cached\n") }

/-- A resolver that answers the identifier `alias` with the package `canonical`. -/
def c11Importer : Importer := fun p =>
  if p = "alias" then .ok (mkpkg "canonical" []) else .error "cannot find package"

/-- The pieces of a path between its separators `/`. -/
def splitSlash : List Char → List (List Char)
  | [] => [[]]
  | c :: cs =>
    if c = '/' then [] :: splitSlash cs
    else
      match splitSlash cs with
      | [] => [[c]]
      | w :: ws => (c :: w) :: ws

/-- One element of a path as `filepath.Clean` treats it: an empty element and `.` are dropped,
`..` removes the element before it, is dropped at the root, and is kept at the start of a path that
is not rooted; any other element is appended.  The stack holds the elements kept so far, the last
one first. -/
def cleanStep (rooted : Bool) (stack : List String) (e : String) : List String :=
  if e = "" ∨ e = "." then stack
  else if e = ".." then
    match stack with
    | top :: rest => if top = ".." then ".." :: stack else rest
    | [] => if rooted then [] else [".."]
  else e :: stack

/-- Model of `filepath.Clean` on Unix (standard library, not part of this repository): whether
the path is rooted, and the elements of the cleaned path. -/
def elements (path : String) : Bool × List String :=
  (path.data.head? = some '/',
    (((splitSlash path.data).map String.mk).foldl
      (cleanStep (path.data.head? = some '/')) []).reverse)

/-- The elements joined by `/`. -/
def joinSlash : List String → String
  | [] => ""
  | [a] => a
  | a :: b :: rest => a ++ "/" ++ joinSlash (b :: rest)

/-- The cleaned path as a string: `/` followed by the elements for a rooted path, else the
elements, and `.` when there are none. -/
def filepathClean (path : String) : String :=
  if (elements path).1 then "/" ++ joinSlash (elements path).2
  else if (elements path).2 = [] then "." else joinSlash (elements path).2

/-- The two lists without their longest common prefix. -/
def dropCommon : List String → List String → List String × List String
  | a :: as, b :: bs => if a = b then dropCommon as bs else (a :: as, b :: bs)
  | as, bs => (as, bs)

/-- Model of `filepath.Rel(basepath, targpath)` on Unix (standard library, not part of this
repository), on the elements of the cleaned paths: `.` for equal paths; an error when one path is
rooted and the other is not, or when the base would have to be left through a `..` element;
otherwise one `..` for every element of the base below the common prefix, followed by the
elements of the target below it. -/
def filepathRel (basepath targpath : String) : String × Option String :=
  if elements basepath = elements targpath then (".", none)
  else if (elements basepath).1 ≠ (elements targpath).1 then
    ("", some ("Rel: can't make " ++ targpath ++ " relative to " ++ basepath))
  else
    let rest := dropCommon (elements basepath).2 (elements targpath).2
    if rest.1.head? = some ".." then
      ("", some ("Rel: can't make " ++ targpath ++ " relative to " ++ basepath))
    else (joinSlash (List.replicate rest.1.length ".." ++ rest.2), none)

/-- The function `getGoSubpath` (main.go 114-128), over the function it calls as `filepath.Rel`.
The pair is Go's `(string, error)`; the error is `none` for `nil`. -/
def getGoSubpath (rel : String → String → String × Option String) (srcDir wd : String) :
    String × Option String :=
  if wd = "" then ("", some "working directory is not in GOPATH")
  else
    match rel srcDir wd with
    | (_, some err) => ("", some err)
    | (relpath, none) =>
      if relpath = "" ∨ relpath.data.head? = some '.' then
        ("", some ("working directory " ++ wd ++ " is not in GOPATH"))
      else (relpath, none)

/-- The directory `wd` lies strictly beneath `srcDir`: both are rooted or neither is, and the
elements of `srcDir` are a proper prefix of the elements of `wd`. -/
def beneath (srcDir wd : String) : Prop :=
  (elements srcDir).1 = (elements wd).1 ∧ (elements srcDir).2 <+: (elements wd).2 ∧
    (elements srcDir).2 ≠ (elements wd).2

instance beneath.decidable (srcDir wd : String) : Decidable (beneath srcDir wd) :=
  inferInstanceAs (Decidable (_ ∧ _ ∧ _))

/-- What `main` obtains from outside the program, after `flag.Parse`. -/
structure Sys where
  /-- The program name `os.Args[0]`. -/
  prog : String
  /-- The positional arguments `flag.Args()`. -/
  positional : List String
  /-- The value of the flag `-f`. -/
  format : String
  /-- The result of `os.Getwd()`. -/
  getwd : String × Option String
  /-- The value of `build.Default.GOPATH`. -/
  gopath : String
  /-- The function `filepath.Join` on two elements. -/
  join : String → String → String
  /-- The function `filepath.Rel`. -/
  rel : String → String → String × Option String
  /-- The call `template.New("").Parse(text)`: the template, or the error text. -/
  parse : String → Except String Template
  /-- The external resolver. -/
  imp : Importer

/-- What a run of `main` did. -/
structure MainResult where
  /-- The messages of the `log.Printf` calls that are followed by `flag.Usage()`. -/
  usages : List String
  /-- The text handed to `Parse` (ghost). -/
  template : String
  /-- The error of `log.Fatal(err)` after `Parse`, or else how the loop over the arguments
  ended. -/
  outcome : Except String (Outcome Unit)

/-- Lines 139-155 of `main`: the arguments to traverse and the usage messages logged.  Neither
`log.Printf` nor `flag.Usage()` ends the process, so after a usage message `main` goes on with
the `rel` that `getGoSubpath` returned. -/
def mainArgs (sys : Sys) : List String × List String :=
  if sys.positional.length < 1 then
    ([(getGoSubpath sys.rel (sys.join sys.gopath "src") sys.getwd.1).1],
      (match sys.getwd.2 with
        | some _ => ["Usage: " ++ sys.prog ++ " <importpath>\n"]
        | none => []) ++
      (match (getGoSubpath sys.rel (sys.join sys.gopath "src") sys.getwd.1).2 with
        | some err => [err ++ "\nUsage: " ++ sys.prog ++ " <importpath>\n"]
        | none => []))
  else (sys.positional, [])

/-- The function `main` (main.go 130-165) after `flag.Parse`, with the flags it has set. -/
def main (fl : Flags) (sys : Sys) : MainResult :=
  { usages := (mainArgs sys).2
    template := sys.format ++ "\n"
    outcome :=
      match sys.parse (sys.format ++ "\n") with
      | .error err => .error err
      | .ok t => .ok (mainLoop fl sys.imp t (mainArgs sys).1 State.init) }

/-- A run without arguments from a working directory outside `$GOPATH/src`. -/
def c16Sys : Sys :=
  { prog := "prdeps", positional := [],
    format := "\x7b\x7b.Indent\x7d\x7d\x7b\x7b.ImportPath\x7d\x7d:",
    getwd := ("/tmp/work", none), gopath := "/home/gopher/go",
    join := fun a b => filepathClean (a ++ "/" ++ b), rel := filepathRel,
    parse := fun _ => .ok defaultTemplate, imp := c1Importer }

/-- A run whose `-f` value already ends in a newline. -/
def c17Sys : Sys := { c16Sys with positional := ["A"], format := "x\n" }

/-- The package `q` is the package `p` with some of its dependency slices sorted: same identifier,
flag and other fields, and each slice either as in `p` or the sorted slice of `p`. -/
def rearranged (p q : Package) : Prop :=
  q.ImportPath = p.ImportPath ∧ q.Goroot = p.Goroot ∧ q.Dir = p.Dir ∧ q.Name = p.Name ∧
  (q.Imports = p.Imports ∨ q.Imports = sortStrings p.Imports) ∧
  (q.TestImports = p.TestImports ∨ q.TestImports = sortStrings p.TestImports) ∧
  (q.XTestImports = p.XTestImports ∨ q.XTestImports = sortStrings p.XTestImports)

/-- Every package in `pkgcache` is stored under its `ImportPath` and is a package the external
resolver returned, with some of its slices sorted. -/
def cacheFrom (imp : Importer) (s : State) : Prop :=
  ∀ k q, s.pkgcache k = some q →
    ∃ x p, imp x = .ok p ∧ p.ImportPath = k ∧ rearranged p q

/-- Every package in `pkgcache` is stored under its `ImportPath` and is, field by field, a package
the external resolver returned. -/
def cacheExact (imp : Importer) (s : State) : Prop :=
  ∀ k q, s.pkgcache k = some q → ∃ x, imp x = .ok q ∧ q.ImportPath = k

/-- The loop of `forEach` over a body that may run out of fuel (`none`). -/
def forEachFuel (f : String → State → Option (Outcome Unit)) :
    List String → State → Option (Outcome Unit)
  | [], s => some (.ok () s)
  | x :: xs, s =>
    match f x s with
    | none => none
    | some (.ok _ s1) => forEachFuel f xs s1
    | some (.fatal p e s1) => some (.fatal p e s1)
    | some (.panic s1) => some (.panic s1)

/-- The function `printpkg` (main.go 63-112) with a bound on the nesting of calls in place of a
termination argument: each nested call uses up one unit of fuel, and `none` means the fuel ran
out. -/
def printpkgFuel (fl : Flags) (imp : Importer) (t : Template) :
    Nat → String → Int → State → Option (Outcome Unit)
  | 0, _, _, _ => none
  | fuel + 1, importpath, depth, s =>
    if importpath = "C" ∨ importpath = "unsafe" then some (.ok () s)
    else
      match loadpkg imp importpath { s with trace := s.trace ++ [Event.load importpath depth] } with
      | .fatal p e s1 => some (.fatal p e s1)
      | .panic s1 => some (.panic s1)
      | .ok (slot, pkg) s1 =>
        if pkg.Goroot && !fl.stdlib then some (.ok () s1)
        else
          match render t importpath pkg depth s1 with
          | .fatal p e s2 => some (.fatal p e s2)
          | .panic s2 => some (.panic s2)
          | .ok _ s2 =>
            if depth + 1 > fl.maxdepth then
              some (.ok ()
                { s2 with
                  pkgcache := Function.update s2.pkgcache slot (some (sortdeps fl depth pkg).2) })
            else
              forEachFuel (fun dep st => printpkgFuel fl imp t fuel dep (depth + 1) st)
                (sortdeps fl depth pkg).1
                { s2 with
                  pkgcache := Function.update s2.pkgcache slot (some (sortdeps fl depth pkg).2) }

/-- A resolver with an import cycle: `A` imports `B` and `B` imports `A`. -/
def c19Importer : Importer := fun p =>
  if p = "A" then .ok (mkpkg "A" ["B"])
  else if p = "B" then .ok (mkpkg "B" ["A"])
  else .error "cannot find package"

/-- Two packages that differ at most in the order of their dependency lists. -/
def permPkg (p q : Package) : Prop :=
  p.ImportPath = q.ImportPath ∧ p.Goroot = q.Goroot ∧ p.Dir = q.Dir ∧ p.Name = q.Name ∧
  p.Imports.Perm q.Imports ∧ p.TestImports.Perm q.TestImports ∧
  p.XTestImports.Perm q.XTestImports

/-- Two resolvers that return the same packages up to the order of the dependency lists, and fail
on the same identifiers with the same error. -/
def sameUpToOrder (imp1 imp2 : Importer) : Prop :=
  ∀ x, (∃ p q, imp1 x = .ok p ∧ imp2 x = .ok q ∧ permPkg p q) ∨
    (∃ e, imp1 x = .error e ∧ imp2 x = .error e)

/-- Two states with the same output, log and render cache, whose resolver caches hold, under the
same keys, packages that differ at most in the order of their dependency lists. -/
def simState (a b : State) : Prop :=
  a.stdout = b.stdout ∧ a.printcache = b.printcache ∧ a.trace = b.trace ∧
  ∀ k, (a.pkgcache k = none ∧ b.pkgcache k = none) ∨
    (∃ p q, a.pkgcache k = some p ∧ b.pkgcache k = some q ∧ permPkg p q)

/-- Two calls that end the same way in states related by `simState`. -/
def simOutcome (o1 o2 : Outcome Unit) : Prop :=
  (∃ a b, o1 = .ok () a ∧ o2 = .ok () b ∧ simState a b) ∨
  (∃ p e a b, o1 = .fatal p e a ∧ o2 = .fatal p e b ∧ simState a b) ∨
  (∃ a b, o1 = .panic a ∧ o2 = .panic b ∧ simState a b)

/-- The resolver of the example with the imports of `A` in the other order. -/
def c12Importer : Importer := fun p =>
  if p = "A" then .ok (mkpkg "A" ["B", "C"])
  else if p = "B" then .ok (mkpkg "B" [])
  else if p = "C" then .ok (mkpkg "C" [])
  else .error "cannot find package"

/-- The traversal of `printpkg` with both caches disabled, as the claim words it: every lookup
calls the external resolver and every node is rendered afresh.  The maps of the state are neither
read nor written. -/
def printpkgNoCache (fl : Flags) (imp : Importer) (t : Template) (importpath : String)
    (depth : Int) (s : State) : Outcome Unit :=
  if importpath = "C" ∨ importpath = "unsafe" then .ok () s
  else
    match imp importpath with
    | .error err => .fatal importpath err s
    | .ok pkg =>
      if pkg.Goroot && !fl.stdlib then .ok () s
      else
        match spaces depth with
        | none => .panic s
        | some indent =>
          if depth + 1 > fl.maxdepth then .ok () { s with stdout := s.stdout ++ t pkg indent }
          else
            forEach (fun dep st => printpkgNoCache fl imp t dep (depth + 1) st)
              (sortdeps fl depth pkg).1 { s with stdout := s.stdout ++ t pkg indent }
termination_by (fl.maxdepth - depth).toNat
decreasing_by
  simp_wf
  omega

/-- The loop of `main` over its arguments, with both caches disabled. -/
def mainLoopNoCache (fl : Flags) (imp : Importer) (t : Template) (args : List String)
    (s : State) : Outcome Unit :=
  forEach (fun pkg st => printpkgNoCache fl imp t pkg 0 st) args s

/-- Every block in `printcache` is what the default template gives for its key. -/
def printOK (s : State) : Prop :=
  ∀ d path out, s.printcache (d, path) = some out →
    ∃ indent, spaces d = some indent ∧ out = indent ++ path ++ ":\n"

/-- A state of the cached traversal and a state of the traversal without caches that have written
the same output. -/
def sameOutput (imp : Importer) (a b : State) : Prop :=
  a.stdout = b.stdout ∧ cacheFrom imp a ∧ printOK a

/-- A cached call and a call without caches that end the same way with the same output. -/
def sameRun (imp : Importer) (o1 o2 : Outcome Unit) : Prop :=
  (∃ a b, o1 = .ok () a ∧ o2 = .ok () b ∧ sameOutput imp a b) ∨
  (∃ p e a b, o1 = .fatal p e a ∧ o2 = .fatal p e b ∧ a.stdout = b.stdout)

/-- The defining equation of `printpkg`. -/
theorem printpkg_eq (fl : Flags) (imp : Importer) (t : Template) (importpath : String) (depth : Int)
    (s : State) : printpkg fl imp t importpath depth s =
  if importpath = "C" ∨ importpath = "unsafe" then .ok () s
  else
    match loadpkg imp importpath { s with trace := s.trace ++ [Event.load importpath depth] } with
    | .fatal p e s1 => .fatal p e s1
    | .panic s1 => .panic s1
    | .ok (slot, pkg) s1 =>
      if pkg.Goroot && !fl.stdlib then .ok () s1
      else
        match render t importpath pkg depth s1 with
        | .fatal p e s2 => .fatal p e s2
        | .panic s2 => .panic s2
        | .ok _ s2 =>
          let s3 : State :=
            { s2 with pkgcache := Function.update s2.pkgcache slot (some (sortdeps fl depth pkg).2) }
          if depth + 1 > fl.maxdepth then .ok () s3
          else forEach (fun dep st => printpkg fl imp t dep (depth + 1) st) (sortdeps fl depth pkg).1 s3 := by
  rw [printpkg]

/-- A relation that holds of a returning step and composes along `ok` holds of the loop. -/
theorem forEach_rule (R : State → Outcome Unit → Prop) (f : String → State → Outcome Unit)
    (hret : ∀ s, R s (.ok () s))
    (hseq : ∀ a b o, R a (.ok () b) → R b o → R a o)
    (hf : ∀ x s, R s (f x s)) :
    ∀ xs s, R s (forEach f xs s) := by
  intro xs
  induction xs with
  | nil => intro s; exact hret s
  | cons x xs ih =>
    intro s
    have h1 := hf x s
    simp only [forEach]
    cases hfx : f x s with
    | ok a s1 =>
      rw [hfx] at h1
      exact hseq s s1 _ h1 (ih s1)
    | fatal p e s1 => rw [hfx] at h1; exact h1
    | panic s1 => rw [hfx] at h1; exact h1

/-- Proof rule for `printpkg`: a relation between start state and outcome that holds of the steps
of the body and composes along `ok` holds of every call. -/
theorem printpkg_rule (fl : Flags) (imp : Importer) (t : Template)
    (R : Int → State → Outcome Unit → Prop)
    (hret : ∀ d s, R d s (.ok () s))
    (hseq : ∀ d a b o, R d a (.ok () b) → R d b o → R d a o)
    (hlift : ∀ d a o, d + 1 ≤ fl.maxdepth → R (d + 1) a o → R d a o)
    (hload : ∀ d s importpath, R d s
      (loadpkg imp importpath { s with trace := s.trace ++ [Event.load importpath d] }).void)
    (hrender : ∀ d s importpath pkg, R d s (render t importpath pkg d s))
    (hsort : ∀ d s slot pkg,
      R d s (.ok () { s with pkgcache := Function.update s.pkgcache slot (some pkg) })) :
    ∀ importpath d s, R d s (printpkg fl imp t importpath d s) := by
  have key : ∀ (n : Nat) importpath d s, (fl.maxdepth - d).toNat = n →
      R d s (printpkg fl imp t importpath d s) := by
    intro n
    induction n using Nat.strong_induction_on with
    | _ n ih =>
      intro importpath d s hn
      rw [printpkg_eq]
      split
      · exact hret d s
      · have h01 := hload d s importpath
        split
        · rename_i p e s1 heq
          rw [heq] at h01
          exact h01
        · rename_i s1 heq
          rw [heq] at h01
          exact h01
        · rename_i slot pkg s1 heq
          rw [heq] at h01
          simp only [Outcome.void] at h01
          split
          · exact h01
          · have h2 := hrender d s1 importpath pkg
            split
            · rename_i p e s2 heq2
              rw [heq2] at h2
              exact hseq _ _ _ _ h01 h2
            · rename_i s2 heq2
              rw [heq2] at h2
              exact hseq _ _ _ _ h01 h2
            · rename_i u s2 heq2
              rw [heq2] at h2
              have h012 := hseq _ _ _ _ h01 h2
              have h3 := hsort d s2 slot (sortdeps fl d pkg).2
              have h0123 := hseq _ _ _ _ h012 h3
              simp only
              split
              · exact h0123
              · rename_i hd
                refine hseq _ _ _ _ h0123 ?_
                apply hlift _ _ _ (by omega)
                apply forEach_rule (R (d + 1)) _ (hret _) (hseq _)
                intro x st
                exact ih ((fl.maxdepth - (d + 1)).toNat) (by omega) x (d + 1) st rfl
  intro importpath d s
  exact key _ importpath d s rfl

/-- The blocks of a concatenated log. -/
theorem written_append (a b : List Event) : written (a ++ b) = written a ++ written b := by
  induction a with
  | nil => simp [written]
  | cons e es ih =>
    cases e <;> simp [written, ih, String.append_assoc]

/-- The events of a call whose log grew by `new`. -/
theorem newEvents_eq {α : Type} (s : State) (o : Outcome α) (new : List Event)
    (h : o.final.trace = s.trace ++ new) : newEvents s o = new := by
  simp [newEvents, h]

/-- The bytes of a call whose output grew by `x`. -/
theorem appended_eq {α : Type} (s : State) (o : Outcome α) (x : String)
    (h : o.final.stdout = s.stdout ++ x) : appended s o = x := by
  simp [appended, h]

/-- Event-level form of the rule -/
theorem printpkg_events (fl : Flags) (imp : Importer) (t : Template)
    (P : Int → State → List Event → Outcome Unit → Prop)
    (hret : ∀ d s, P d s [] (.ok () s))
    (hseq : ∀ d a b o n1 n2, b.trace = a.trace ++ n1 → o.final.trace = b.trace ++ n2 →
      P d a n1 (.ok () b) → P d b n2 o → P d a (n1 ++ n2) o)
    (hlift : ∀ d a n o, d + 1 ≤ fl.maxdepth → P (d + 1) a n o → P d a n o)
    (hhit : ∀ d (s : State) importpath pkg, s.pkgcache importpath = some pkg →
      P d s [Event.load importpath d]
        (.ok () { s with trace := s.trace ++ [Event.load importpath d] }))
    (hmiss : ∀ d (s : State) importpath err, s.pkgcache importpath = none →
      imp importpath = .error err →
      P d s [Event.load importpath d, Event.resolve importpath]
        (.fatal importpath err
          { s with trace := s.trace ++ [Event.load importpath d, Event.resolve importpath] }))
    (hstore : ∀ d (s : State) importpath pkg, s.pkgcache importpath = none →
      imp importpath = .ok pkg →
      P d s [Event.load importpath d, Event.resolve importpath]
        (.ok () { s with
          trace := s.trace ++ [Event.load importpath d, Event.resolve importpath]
          pkgcache := Function.update s.pkgcache pkg.ImportPath (some pkg) }))
    (hreplay : ∀ d (s : State) importpath (pkg : Package) out,
      s.printcache (d, pkg.ImportPath) = some out →
      P d s [Event.write importpath d pkg.ImportPath out]
        (.ok () { s with
          stdout := s.stdout ++ out
          trace := s.trace ++ [Event.write importpath d pkg.ImportPath out] }))
    (hpanic : ∀ d (s : State) (pkg : Package), s.printcache (d, pkg.ImportPath) = none →
      spaces d = none → P d s [] (.panic s))
    (hfresh : ∀ d (s : State) importpath (pkg : Package) indent,
      s.printcache (d, pkg.ImportPath) = none → spaces d = some indent →
      P d s [Event.execute d pkg.ImportPath,
          Event.write importpath d pkg.ImportPath (t pkg indent)]
        (.ok () { s with
          printcache := Function.update s.printcache (d, pkg.ImportPath) (some (t pkg indent))
          stdout := s.stdout ++ t pkg indent
          trace := s.trace ++ [Event.execute d pkg.ImportPath,
            Event.write importpath d pkg.ImportPath (t pkg indent)] }))
    (hsort : ∀ d s slot pkg,
      P d s [] (.ok () { s with pkgcache := Function.update s.pkgcache slot (some pkg) })) :
    ∀ importpath d s, ∃ new,
      (printpkg fl imp t importpath d s).final.trace = s.trace ++ new ∧
      P d s new (printpkg fl imp t importpath d s) := by
  apply printpkg_rule fl imp t
    (fun d s o => ∃ new, o.final.trace = s.trace ++ new ∧ P d s new o)
  · intro d s; exact ⟨[], by simp [Outcome.final], hret d s⟩
  · rintro d a b o ⟨n1, h1, p1⟩ ⟨n2, h2, p2⟩
    simp only [Outcome.final] at h1
    exact ⟨n1 ++ n2, by rw [h2, h1, List.append_assoc], hseq d a b o n1 n2 h1 h2 p1 p2⟩
  · rintro d a o hd ⟨n, h, p⟩
    exact ⟨n, h, hlift d a n o hd p⟩
  · intro d s importpath
    unfold loadpkg
    cases hc : s.pkgcache importpath with
    | some pkg =>
      simp only [hc, Outcome.void, Outcome.final]
      exact ⟨_, rfl, hhit d s importpath pkg hc⟩
    | none =>
      cases hi : imp importpath with
      | error err =>
        simp only [hc, Outcome.void, Outcome.final, List.append_assoc, List.singleton_append]
        exact ⟨_, rfl, hmiss d s importpath err hc hi⟩
      | ok pkg =>
        simp only [hc, Outcome.void, Outcome.final, List.append_assoc, List.singleton_append]
        exact ⟨_, rfl, hstore d s importpath pkg hc hi⟩
  · intro d s importpath pkg
    unfold render
    cases hc : s.printcache (d, pkg.ImportPath) with
    | some out => exact ⟨_, rfl, hreplay d s importpath pkg out hc⟩
    | none =>
      cases hs : spaces d with
      | none => exact ⟨[], by simp [Outcome.final], hpanic d s pkg hc hs⟩
      | some indent => exact ⟨_, rfl, hfresh d s importpath pkg indent hc hs⟩
  · intro d s slot pkg
    exact ⟨[], by simp [Outcome.final], hsort d s slot pkg⟩

/-- The resolutions of a concatenated log. -/
theorem resolved_append (a b : List Event) : resolved (a ++ b) = resolved a ++ resolved b := by
  induction a with
  | nil => simp [resolved]
  | cons e es ih => cases e <;> simp [resolved, ih]

/-- The loads of a concatenated log. -/
theorem loaded_append (a b : List Event) : loaded (a ++ b) = loaded a ++ loaded b := by
  induction a with
  | nil => simp [loaded]
  | cons e es ih => cases e <;> simp [loaded, ih]

/-- Proof rule for a loop on the events each round logs. -/
theorem forEach_events (P : State → List Event → Outcome Unit → Prop)
    (f : String → State → Outcome Unit)
    (hret : ∀ s, P s [] (.ok () s))
    (hseq : ∀ a b o n1 n2, b.trace = a.trace ++ n1 → o.final.trace = b.trace ++ n2 →
      P a n1 (.ok () b) → P b n2 o → P a (n1 ++ n2) o)
    (hf : ∀ x s, ∃ new, (f x s).final.trace = s.trace ++ new ∧ P s new (f x s)) :
    ∀ xs s, ∃ new, (forEach f xs s).final.trace = s.trace ++ new ∧
      P s new (forEach f xs s) := by
  apply forEach_rule (fun s o => ∃ new, o.final.trace = s.trace ++ new ∧ P s new o)
  · intro s; exact ⟨[], by simp [Outcome.final], hret s⟩
  · rintro a b o ⟨n1, h1, p1⟩ ⟨n2, h2, p2⟩
    simp only [Outcome.final] at h1
    exact ⟨n1 ++ n2, by rw [h2, h1, List.append_assoc], hseq a b o n1 n2 h1 h2 p1 p2⟩
  · exact hf

/-- Every depth in the log of a call at depth `d` lies between `d` and `max maxdepth d`, and
every external resolution follows a `load` -/
theorem printpkg_depths (fl : Flags) (imp : Importer) (t : Template) (importpath : String)
    (d : Int) (s : State) :
    ∃ new, (printpkg fl imp t importpath d s).final.trace = s.trace ++ new ∧
      ((∀ e ∈ new, ∀ k, e.depth? = some k → d ≤ k ∧ k ≤ max fl.maxdepth d) ∧
        List.Sublist (resolved new) (loaded new)) := by
  apply printpkg_events fl imp t (fun d _ new _ =>
    (∀ e ∈ new, ∀ k, e.depth? = some k → d ≤ k ∧ k ≤ max fl.maxdepth d) ∧
      List.Sublist (resolved new) (loaded new))
  · intro d s; simp [resolved, loaded]
  · rintro d a b o n1 n2 - - ⟨h1, l1⟩ ⟨h2, l2⟩
    refine ⟨?_, ?_⟩
    · intro e he k hk
      rcases List.mem_append.mp he with h | h
      · exact h1 e h k hk
      · exact h2 e h k hk
    · rw [resolved_append, loaded_append]; exact l1.append l2
  · rintro d a n o hd ⟨h, l⟩
    refine ⟨?_, l⟩
    intro e he k hk
    have := h e he k hk
    omega
  · intro d s importpath pkg _
    simp [Event.depth?, resolved, loaded]
  · intro d s importpath err _ _
    simp [Event.depth?, resolved, loaded]
  · intro d s importpath pkg _ _
    simp [Event.depth?, resolved, loaded]
  · intro d s importpath pkg out _
    simp [Event.depth?, resolved, loaded]
  · intro d s pkg _ _
    simp [resolved, loaded]
  · intro d s importpath pkg indent _ _
    simp [Event.depth?, resolved, loaded]
  · intro d s slot pkg
    simp [resolved, loaded]

/-- Membership in `resolved`. -/
theorem mem_resolved (p : String) (l : List Event) :
    Event.resolve p ∈ l ↔ p ∈ resolved l := by
  induction l with
  | nil => simp [resolved]
  | cons e es ih => cases e <;> simp [resolved, ih]

/-- Fail-stop logs compose. -/
theorem failStop_seq (imp : Importer) (n1 n2 : List Event) (b : State) (o : Outcome Unit)
    (h1 : failStop imp n1 (.ok () b)) (h2 : failStop imp n2 o) :
    failStop imp (n1 ++ n2) o := by
  simp only [failStop] at h1
  cases o with
  | ok u s' =>
    simp only [failStop] at h2 ⊢
    intro q hq
    rw [resolved_append] at hq
    rcases List.mem_append.mp hq with h | h
    · exact h1 q h
    · exact h2 q h
  | panic s' =>
    simp only [failStop] at h2 ⊢
    intro q hq
    rw [resolved_append] at hq
    rcases List.mem_append.mp hq with h | h
    · exact h1 q h
    · exact h2 q h
  | fatal p e s' =>
    simp only [failStop] at h2 ⊢
    obtain ⟨he, pre, hpre, hok⟩ := h2
    refine ⟨he, n1 ++ pre, by rw [hpre, List.append_assoc], ?_⟩
    intro q hq
    rw [resolved_append] at hq
    rcases List.mem_append.mp hq with h | h
    · exact h1 q h
    · exact hok q h

/-- A resolution failure is the last event of a call, and the only failed resolution -/
theorem printpkg_failStop (fl : Flags) (imp : Importer) (t : Template) (importpath : String)
    (d : Int) (s : State) :
    ∃ new, (printpkg fl imp t importpath d s).final.trace = s.trace ++ new ∧
      ((printpkg fl imp t importpath d s).final.stdout = s.stdout ++ written new ∧
        failStop imp new (printpkg fl imp t importpath d s)) := by
  apply printpkg_events fl imp t (fun _ s new o =>
    o.final.stdout = s.stdout ++ written new ∧ failStop imp new o)
  · intro d s; simp [failStop, resolved, written, Outcome.final]
  · rintro d a b o n1 n2 - - ⟨w1, f1⟩ ⟨w2, f2⟩
    refine ⟨?_, failStop_seq imp n1 n2 b o f1 f2⟩
    simp only [Outcome.final] at w1
    rw [w2, w1, written_append, String.append_assoc]
  · rintro d a n o - h; exact h
  · intro d s importpath pkg _
    simp [failStop, resolved, written, Outcome.final]
  · intro d s importpath err _ hi
    refine ⟨by simp [written, Outcome.final], ?_⟩
    simp only [failStop]
    exact ⟨hi, [Event.load importpath d], rfl, by simp [resolved]⟩
  · intro d s importpath pkg _ hi
    simp [failStop, resolved, written, Outcome.final, hi]
  · intro d s importpath pkg out _
    simp [failStop, resolved, written, Outcome.final]
  · intro d s pkg _ _
    simp [failStop, resolved, written, Outcome.final]
  · intro d s importpath pkg indent _ _
    simp [failStop, resolved, written, Outcome.final]
  · intro d s slot pkg
    simp [failStop, resolved, written, Outcome.final]

/-- The loop over the roots is fail-stop and its output is what its log wrote. -/
theorem mainLoop_failStop (fl : Flags) (imp : Importer) (t : Template) (args : List String)
    (s : State) :
    ∃ new, (mainLoop fl imp t args s).final.trace = s.trace ++ new ∧
      ((mainLoop fl imp t args s).final.stdout = s.stdout ++ written new ∧
        failStop imp new (mainLoop fl imp t args s)) := by
  unfold mainLoop
  apply forEach_events (fun s new o =>
    o.final.stdout = s.stdout ++ written new ∧ failStop imp new o)
  · intro s; simp [failStop, resolved, written, Outcome.final]
  · rintro a b o n1 n2 - - ⟨w1, f1⟩ ⟨w2, f2⟩
    refine ⟨?_, failStop_seq imp n1 n2 b o f1 f2⟩
    simp only [Outcome.final] at w1
    rw [w2, w1, written_append, String.append_assoc]
  · intro x st
    exact printpkg_failStop fl imp t x 0 st

/-- A step that logs nothing and keeps the state. -/
theorem cacheInv_refl (s : State) : cacheInv s [] s := by
  simp [cacheInv]

/-- A step that neither renders nor touches `printcache`. -/
theorem cacheInv_same (s s' : State) (new : List Event) (h : s'.printcache = s.printcache)
    (hw : ∀ i d p out, Event.write i d p out ∉ new)
    (he : ∀ d p, Event.execute d p ∉ new) : cacheInv s new s' := by
  refine ⟨?_, ?_, ?_, ?_, ?_⟩
  · intro k v hk; rw [h]; exact hk
  · intro i d p out hm; exact absurd hm (hw i d p out)
  · intro d p hm; exact absurd hm (he d p)
  · intro d p hm; exact absurd hm (he d p)
  · intro d p
    rw [List.count_eq_zero_of_not_mem (he d p)]
    exact Nat.zero_le _

/-- The render-cache invariant composes. -/
theorem cacheInv_seq (a b c : State) (n1 n2 : List Event)
    (h1 : cacheInv a n1 b) (h2 : cacheInv b n2 c) : cacheInv a (n1 ++ n2) c := by
  obtain ⟨a1, b1, c1, e1, d1⟩ := h1
  obtain ⟨a2, b2, c2, e2, d2⟩ := h2
  refine ⟨?_, ?_, ?_, ?_, ?_⟩
  · intro k v hk; exact a2 k v (a1 k v hk)
  · intro i d p out hm
    rcases List.mem_append.mp hm with h | h
    · exact a2 _ _ (b1 i d p out h)
    · exact b2 i d p out h
  · intro d p hm
    rcases List.mem_append.mp hm with h | h
    · exact c1 d p h
    · have hb := c2 d p h
      cases ha : a.printcache (d, p) with
      | none => rfl
      | some v => rw [a1 _ _ ha] at hb; cases hb
  · intro d p hm
    rcases List.mem_append.mp hm with h | h
    · have hb := e1 d p h
      cases hv : b.printcache (d, p) with
      | none => exact absurd hv hb
      | some v => rw [a2 _ _ hv]; simp
    · exact e2 d p h
  · intro d p
    rw [List.count_append]
    by_cases hm2 : Event.execute d p ∈ n2
    · have hb := c2 d p hm2
      have hn1 : Event.execute d p ∉ n1 := fun hm1 => e1 d p hm1 hb
      rw [List.count_eq_zero_of_not_mem hn1]
      have := d2 d p
      omega
    · rw [List.count_eq_zero_of_not_mem hm2]
      have := d1 d p
      omega

/-- Every call keeps the render-cache invariant. -/
theorem printpkg_cacheInv (fl : Flags) (imp : Importer) (t : Template) (importpath : String)
    (d : Int) (s : State) :
    ∃ new, (printpkg fl imp t importpath d s).final.trace = s.trace ++ new ∧
      cacheInv s new (printpkg fl imp t importpath d s).final := by
  apply printpkg_events fl imp t (fun _ s new o => cacheInv s new o.final)
  · intro d s; exact cacheInv_refl s
  · rintro d a b o n1 n2 - - h1 h2
    exact cacheInv_seq a b o.final n1 n2 h1 h2
  · rintro d a n o - h; exact h
  · intro d s importpath pkg _
    exact cacheInv_same _ _ _ rfl (by simp) (by simp)
  · intro d s importpath err _ _
    exact cacheInv_same _ _ _ rfl (by simp) (by simp)
  · intro d s importpath pkg _ _
    exact cacheInv_same _ _ _ rfl (by simp) (by simp)
  · intro d s importpath pkg out hc
    refine ⟨?_, ?_, ?_, ?_, ?_⟩
    · intro k v hk; exact hk
    · intro i d' p out' hm
      simp at hm
      obtain ⟨-, rfl, rfl, rfl⟩ := hm
      exact hc
    · intro d' p hm; simp at hm
    · intro d' p hm; simp at hm
    · intro d' p; simp
  · intro d s pkg _ _
    exact cacheInv_refl s
  · intro d s importpath pkg indent hc _
    refine ⟨?_, ?_, ?_, ?_, ?_⟩
    · intro k v hk
      simp only [Outcome.final]
      by_cases hkk : k = (d, pkg.ImportPath)
      · subst hkk; rw [hc] at hk; cases hk
      · rw [Function.update_noteq hkk]; exact hk
    · intro i d' p out' hm
      simp at hm
      obtain ⟨-, rfl, rfl, rfl⟩ := hm
      simp [Outcome.final]
    · intro d' p hm
      simp at hm
      obtain ⟨rfl, rfl⟩ := hm
      exact hc
    · intro d' p hm
      simp at hm
      obtain ⟨rfl, rfl⟩ := hm
      simp [Outcome.final]
    · intro d' p
      have hsplit : [Event.execute d pkg.ImportPath,
          Event.write importpath d pkg.ImportPath (t pkg indent)] =
          [Event.execute d pkg.ImportPath] ++
            [Event.write importpath d pkg.ImportPath (t pkg indent)] := rfl
      have h2 : List.count (Event.execute d' p)
          [Event.write importpath d pkg.ImportPath (t pkg indent)] = 0 :=
        List.count_eq_zero_of_not_mem (by simp)
      have h1 : List.count (Event.execute d' p) [Event.execute d pkg.ImportPath] ≤ 1 :=
        List.count_le_length _ _
      rw [hsplit, List.count_append, h2]
      omega
  · intro d s slot pkg
    exact cacheInv_same _ _ _ rfl (by simp) (by simp)

/-- The loop over the roots keeps the render-cache invariant. -/
theorem mainLoop_cacheInv (fl : Flags) (imp : Importer) (t : Template) (args : List String)
    (s : State) :
    ∃ new, (mainLoop fl imp t args s).final.trace = s.trace ++ new ∧
      cacheInv s new (mainLoop fl imp t args s).final := by
  unfold mainLoop
  apply forEach_events (fun s new o => cacheInv s new o.final)
  · intro s; exact cacheInv_refl s
  · rintro a b o n1 n2 - - h1 h2
    exact cacheInv_seq a b o.final n1 n2 h1 h2
  · intro x st
    exact printpkg_cacheInv fl imp t x 0 st

/-- The slice after `sort.Strings` is ascending. -/
theorem sortStrings_sorted (l : List String) : List.Sorted strLe (sortStrings l) := by
  haveI : IsTotal String strLe := ⟨fun a b => le_total a.data b.data⟩
  haveI : IsTrans String strLe := ⟨fun a b c h1 h2 => @le_trans (List Char) _ _ _ _ h1 h2⟩
  exact List.sorted_insertionSort strLe l

/-- The slice after `sort.Strings` is a rearrangement of the slice before. -/
theorem sortStrings_perm (l : List String) : List.Perm (sortStrings l) l :=
  List.perm_insertionSort strLe l

/-- The loads at a depth of a concatenated log. -/
theorem loadsAt_append (d : Int) (a b : List Event) :
    loadsAt d (a ++ b) = loadsAt d a ++ loadsAt d b := by
  induction a with
  | nil => simp [loadsAt]
  | cons e es ih =>
    cases e with
    | load p k => by_cases h : k = d <;> simp [loadsAt, h, ih]
    | resolve p => simp [loadsAt, ih]
    | execute k p => simp [loadsAt, ih]
    | write p k c out => simp [loadsAt, ih]

/-- The blocks at a depth of a concatenated log. -/
theorem blocksAt_append (d : Int) (a b : List Event) :
    blocksAt d (a ++ b) = blocksAt d a ++ blocksAt d b := by
  induction a with
  | nil => simp [blocksAt]
  | cons e es ih =>
    cases e with
    | load p k => simp [blocksAt, ih]
    | resolve p => simp [blocksAt, ih]
    | execute k p => simp [blocksAt, ih]
    | write p k c out => by_cases h : k = d <;> simp [blocksAt, h, ih]

/-- A log without events at depth `d` has no loads and no blocks there. -/
theorem atDepth_nil (d : Int) (l : List Event)
    (h : ∀ e ∈ l, ∀ k, e.depth? = some k → k ≠ d) :
    loadsAt d l = [] ∧ blocksAt d l = [] := by
  induction l with
  | nil => simp [loadsAt, blocksAt]
  | cons e es ih =>
    have ih' := ih (fun e he => h e (List.mem_cons_of_mem _ he))
    have he := h e (List.mem_cons_self _ _)
    cases e with
    | load p k =>
      have : k ≠ d := he k rfl
      simp [loadsAt, blocksAt, this, ih']
    | resolve p => simp [loadsAt, blocksAt, ih']
    | execute k p => simp [loadsAt, blocksAt, ih']
    | write p k c out =>
      have : k ≠ d := he k rfl
      simp [loadsAt, blocksAt, this, ih']

/-- Either the call does not recurse, and is the run of the node alone, or it resolves to a
package that is rendered and then loops over the sorted dependencies. -/
theorem printpkg_split (fl : Flags) (imp : Importer) (t : Template) (x : String) (d : Int)
    (s : State) :
    printpkg fl imp t x d s = printpkg (fl.upTo d) imp t x d s ∨
    ∃ pkg s3, fake x = false ∧
      (s.pkgcache x = some pkg ∨ (s.pkgcache x = none ∧ imp x = .ok pkg)) ∧
      (pkg.Goroot && !fl.stdlib) = false ∧ d + 1 ≤ fl.maxdepth ∧
      printpkg (fl.upTo d) imp t x d s = .ok () s3 ∧
      printpkg fl imp t x d s =
        forEach (fun dep st => printpkg fl imp t dep (d + 1) st) (sortdeps fl d pkg).1 s3 := by
  by_cases hd : d + 1 > fl.maxdepth
  · left
    rw [printpkg_eq, printpkg_eq]
    simp [Flags.upTo, hd, sortdeps]
  · by_cases hf : x = "C" ∨ x = "unsafe"
    · left; rw [printpkg_eq, printpkg_eq]; simp [hf]
    · have hfk : fake x = false := by
        simp only [fake, Bool.or_eq_false_iff, beq_eq_false_iff_ne]
        exact ⟨fun h => hf (Or.inl h), fun h => hf (Or.inr h)⟩
      rw [printpkg_eq, printpkg_eq (fl.upTo d)]
      simp only [hf, if_false]
      cases hl : loadpkg imp x { s with trace := s.trace ++ [Event.load x d] } with
      | fatal p e s1 => left; rfl
      | panic s1 => left; rfl
      | ok r s1 =>
        obtain ⟨slot, pkg⟩ := r
        have hres : s.pkgcache x = some pkg ∨ (s.pkgcache x = none ∧ imp x = .ok pkg) := by
          unfold loadpkg at hl
          cases hc : s.pkgcache x with
          | some q => simp [hc] at hl; left; rw [hl.1.2]
          | none =>
            right
            cases hi : imp x with
            | error err => simp [hc, hi] at hl
            | ok q => simp [hc, hi] at hl; simp [hl.1.2]
        simp only
        by_cases hg : (pkg.Goroot && !fl.stdlib) = true
        · left; simp [hg, Flags.upTo]
        · have hg' : (pkg.Goroot && !(fl.upTo d).stdlib) = false := by
            simpa [Flags.upTo] using hg
          rw [if_neg hg, if_neg (by simpa using hg')]
          cases hr : render t x pkg d s1 with
          | fatal p e s2 => left; rfl
          | panic s2 => left; rfl
          | ok u s2 =>
            right
            have hsd : sortdeps (fl.upTo d) d pkg = sortdeps fl d pkg := by
              simp [sortdeps, Flags.upTo]
            refine ⟨pkg,
              { s2 with
                pkgcache := Function.update s2.pkgcache slot (some (sortdeps fl d pkg).2) },
              hfk, hres, by simpa using hg, by omega, ?_, ?_⟩
            · simp only [hsd]
              rw [if_pos (by simp [Flags.upTo])]
            · simp only
              rw [if_neg hd]

/-- The loop over the dependencies logs nothing above its depth. -/
theorem forEach_depths (fl : Flags) (imp : Importer) (t : Template) (d : Int)
    (xs : List String) (s : State) :
    ∃ new, (forEach (fun dep st => printpkg fl imp t dep d st) xs s).final.trace
        = s.trace ++ new ∧
      ∀ e ∈ new, ∀ k, e.depth? = some k → d ≤ k := by
  apply forEach_events (fun _ new _ => ∀ e ∈ new, ∀ k, e.depth? = some k → d ≤ k)
  · intro s; simp
  · rintro a b o n1 n2 - - h1 h2 e he k hk
    rcases List.mem_append.mp he with h | h
    · exact h1 e h k hk
    · exact h2 e h k hk
  · intro x st
    obtain ⟨new, h, hp, -⟩ := printpkg_depths fl imp t x d st
    exact ⟨new, h, fun e he k hk => (hp e he k hk).1⟩

/-- The log of a call that does not recurse. -/
theorem node_events (fl : Flags) (imp : Importer) (t : Template) (x : String) (d : Int)
    (s : State) :
    ∃ new, (printpkg (fl.upTo d) imp t x d s).final.trace = s.trace ++ new ∧
      loadsAt d new = (if fake x then [] else [x]) ∧ List.Sublist (blocksAt d new) [x] ∧
      ∀ e ∈ new, ∀ k, e.depth? = some k → k = d := by
  have hdep : ∀ new, (printpkg (fl.upTo d) imp t x d s).final.trace = s.trace ++ new →
      ∀ e ∈ new, ∀ k, e.depth? = some k → k = d := by
    intro new hnew
    obtain ⟨new', h', hp, -⟩ := printpkg_depths (fl.upTo d) imp t x d s
    have : new = new' := List.append_cancel_left (hnew.symm.trans h')
    subst this
    intro e he k hk
    have := hp e he k hk
    simp only [Flags.upTo, max_self] at this
    omega
  have h1 : ∃ new, (printpkg (fl.upTo d) imp t x d s).final.trace = s.trace ++ new ∧
      loadsAt d new = (if fake x then [] else [x]) ∧ List.Sublist (blocksAt d new) [x] := by
    by_cases hf : x = "C" ∨ x = "unsafe"
    · have hfk : fake x = true := by
        rcases hf with h | h <;> simp [fake, h]
      refine ⟨[], ?_, ?_, ?_⟩
      · rw [printpkg_eq]; simp [hf, Outcome.final]
      · simp [hfk, loadsAt]
      · simp [blocksAt]
    · have hfk : fake x = false := by
        simp only [fake, Bool.or_eq_false_iff, beq_eq_false_iff_ne]
        exact ⟨fun h => hf (Or.inl h), fun h => hf (Or.inr h)⟩
      rw [printpkg_eq]
      simp only [hf, if_false, hfk]
      unfold loadpkg
      cases hc : s.pkgcache x with
      | some pkg =>
        simp only
        split
        · refine ⟨[Event.load x d], ?_, ?_, ?_⟩ <;> simp [Outcome.final, loadsAt, blocksAt]
        · unfold render
          cases hp : s.printcache (d, pkg.ImportPath) with
          | some out =>
            refine ⟨[Event.load x d, Event.write x d pkg.ImportPath out], ?_, ?_, ?_⟩ <;> simp [Outcome.final, loadsAt, blocksAt, Flags.upTo]
          | none =>
            cases hs : spaces d with
            | none =>
              refine ⟨[Event.load x d], ?_, ?_, ?_⟩ <;> simp [Outcome.final, loadsAt, blocksAt]
            | some indent =>
              refine ⟨[Event.load x d, Event.execute d pkg.ImportPath,
                Event.write x d pkg.ImportPath (t pkg indent)], ?_, ?_, ?_⟩ <;> simp [Outcome.final, loadsAt, blocksAt, Flags.upTo]
      | none =>
        cases hi : imp x with
        | error err =>
          refine ⟨[Event.load x d, Event.resolve x], ?_, ?_, ?_⟩ <;> simp [Outcome.final, loadsAt, blocksAt]
        | ok pkg =>
          simp only
          split
          · refine ⟨[Event.load x d, Event.resolve x], ?_, ?_, ?_⟩ <;> simp [Outcome.final, loadsAt, blocksAt]
          · unfold render
            cases hp : s.printcache (d, pkg.ImportPath) with
            | some out =>
              refine ⟨[Event.load x d, Event.resolve x, Event.write x d pkg.ImportPath out], ?_, ?_, ?_⟩ <;> simp [Outcome.final, loadsAt, blocksAt, Flags.upTo]
            | none =>
              cases hs : spaces d with
              | none =>
                refine ⟨[Event.load x d, Event.resolve x], ?_, ?_, ?_⟩ <;> simp [Outcome.final, loadsAt, blocksAt]
              | some indent =>
                refine ⟨[Event.load x d, Event.resolve x, Event.execute d pkg.ImportPath,
                  Event.write x d pkg.ImportPath (t pkg indent)], ?_, ?_, ?_⟩ <;> simp [Outcome.final, loadsAt, blocksAt, Flags.upTo]
  obtain ⟨new, a, b, c⟩ := h1
  exact ⟨new, a, b, c, hdep new a⟩

/-- At its own depth a call logs its own `load`, unless the path is a pseudo-package, and at most
its own block. -/
theorem call_events (fl : Flags) (imp : Importer) (t : Template) (x : String) (d : Int)
    (s : State) :
    ∃ new, (printpkg fl imp t x d s).final.trace = s.trace ++ new ∧
      loadsAt d new = (if fake x then [] else [x]) ∧ List.Sublist (blocksAt d new) [x] := by
  obtain ⟨n1, h1, l1, b1, -⟩ := node_events fl imp t x d s
  rcases printpkg_split fl imp t x d s with h | ⟨pkg, s3, -, -, -, -, hnode, hrec⟩
  · rw [h]; exact ⟨n1, h1, l1, b1⟩
  · rw [hnode] at h1
    simp only [Outcome.final] at h1
    obtain ⟨n2, h2, hd2⟩ := forEach_depths fl imp t (d + 1) (sortdeps fl d pkg).1 s3
    have hnil := atDepth_nil d n2 (fun e he k hk => by have := hd2 e he k hk; omega)
    refine ⟨n1 ++ n2, ?_, ?_, ?_⟩
    · rw [hrec, h2, h1, List.append_assoc]
    · rw [loadsAt_append, hnil.1, List.append_nil, l1]
    · rw [blocksAt_append, hnil.2, List.append_nil]; exact b1

/-- The loop over the dependencies logs, at its depth, the `load` of every dependency that is not a
pseudo-package when it completes, and blocks of its dependencies in order. -/
theorem forEach_children (fl : Flags) (imp : Importer) (t : Template) (d : Int) :
    ∀ (xs : List String) (s : State), ∃ new,
      (forEach (fun dep st => printpkg fl imp t dep d st) xs s).final.trace = s.trace ++ new ∧
      List.Sublist (blocksAt d new) xs ∧
      ((∃ s', forEach (fun dep st => printpkg fl imp t dep d st) xs s = .ok () s') →
        loadsAt d new = xs.filter (fun x => !fake x)) := by
  intro xs
  induction xs with
  | nil =>
    intro s
    exact ⟨[], by simp [forEach, Outcome.final], by simp [blocksAt], by simp [loadsAt]⟩
  | cons x xs ih =>
    intro s
    obtain ⟨n1, h1, l1, b1⟩ := call_events fl imp t x d s
    simp only [forEach]
    cases ho : printpkg fl imp t x d s with
    | ok u s1 =>
      rw [ho] at h1
      simp only [Outcome.final] at h1
      obtain ⟨n2, h2, b2, l2⟩ := ih s1
      refine ⟨n1 ++ n2, ?_, ?_, ?_⟩
      · rw [h2, h1, List.append_assoc]
      · rw [blocksAt_append]
        exact List.Sublist.append b1 b2
      · intro hok
        rw [loadsAt_append, l1, l2 hok]
        cases hfx : fake x <;> simp [List.filter, hfx]
    | fatal p e s1 =>
      rw [ho] at h1
      refine ⟨n1, h1, ?_, ?_⟩
      · exact b1.trans (by simp)
      · rintro ⟨s', hs'⟩; cases hs'
    | panic s1 =>
      rw [ho] at h1
      refine ⟨n1, h1, ?_, ?_⟩
      · exact b1.trans (by simp)
      · rintro ⟨s', hs'⟩; cases hs'

/-- The slice chosen by the `switch` at main.go 94-101, sorted. -/
theorem sortdeps_fst (fl : Flags) (d : Int) (pkg : Package) :
    (sortdeps fl d pkg).1 =
      sortStrings (if fl.testimports = true ∧ d = 0 then pkg.TestImports
        else if fl.xtestimports = true ∧ d = 0 then pkg.XTestImports else pkg.Imports) := by
  unfold sortdeps
  by_cases h1 : fl.testimports = true ∧ d = 0
  · simp [h1]
  · by_cases h2 : fl.xtestimports = true ∧ d = 0
    · have : ¬ (fl.testimports = true) := fun h => h1 ⟨h, h2.2⟩
      simp [h2, this]
    · rw [if_neg h1, if_neg h2]
      have e1 : (fl.testimports && d == 0) = false := by
        cases hb : fl.testimports <;> simp_all
      have e2 : (fl.xtestimports && d == 0) = false := by
        cases hb : fl.xtestimports <;> simp_all
      simp [e1, e2]

/-- A call that resolves to a package it renders, above the depth bound, is the run of the node
alone followed by the loop over the sorted dependencies. -/
theorem printpkg_rec (fl : Flags) (imp : Importer) (t : Template) (x : String) (d : Int)
    (s : State) (pkg : Package) (hf : fake x = false)
    (hres : s.pkgcache x = some pkg ∨ (s.pkgcache x = none ∧ imp x = .ok pkg))
    (hskip : (pkg.Goroot && !fl.stdlib) = false) (hd : d + 1 ≤ fl.maxdepth) :
    (∃ s3, printpkg (fl.upTo d) imp t x d s = .ok () s3 ∧
      printpkg fl imp t x d s =
        forEach (fun dep st => printpkg fl imp t dep (d + 1) st) (sortdeps fl d pkg).1 s3) ∨
    ((∃ s3, printpkg (fl.upTo d) imp t x d s = .panic s3) ∧
      printpkg fl imp t x d s = printpkg (fl.upTo d) imp t x d s) := by
  have hx : ¬ (x = "C" ∨ x = "unsafe") := by
    simp only [fake, Bool.or_eq_false_iff, beq_eq_false_iff_ne] at hf
    exact fun h => h.elim hf.1 hf.2
  have hsd : sortdeps (fl.upTo d) d pkg = sortdeps fl d pkg := by
    simp [sortdeps, Flags.upTo]
  have hskip' : (pkg.Goroot && !(fl.upTo d).stdlib) = false := hskip
  have hgt : ¬ (d + 1 > fl.maxdepth) := by omega
  have hup : d + 1 > (fl.upTo d).maxdepth := by simp [Flags.upTo]
  have hl : ∃ slot s1, loadpkg imp x { s with trace := s.trace ++ [Event.load x d] }
      = .ok (slot, pkg) s1 := by
    unfold loadpkg
    rcases hres with h1 | ⟨h1, h2⟩
    · exact ⟨x, { s with trace := s.trace ++ [Event.load x d] }, by simp [h1]⟩
    · exact ⟨pkg.ImportPath,
        { s with
          trace := s.trace ++ [Event.load x d, Event.resolve x]
          pkgcache := Function.update s.pkgcache pkg.ImportPath (some pkg) },
        by simp [h1, h2]⟩
  obtain ⟨slot, s1, hl⟩ := hl
  rw [printpkg_eq fl, printpkg_eq (fl.upTo d)]
  simp only [hx, if_false, hl, hskip, hskip', hsd, Bool.false_eq_true]
  cases hr : render t x pkg d s1 with
  | ok u s2 =>
    left
    simp only [if_pos hup, if_neg hgt]
    exact ⟨_, rfl, rfl⟩
  | panic s2 =>
    right
    exact ⟨⟨s2, rfl⟩, rfl⟩
  | fatal p e s2 =>
    exfalso
    unfold render at hr
    cases hp : s1.printcache (d, pkg.ImportPath) with
    | some out => simp [hp] at hr
    | none =>
      cases hs : spaces d with
      | none => simp [hp, hs] at hr
      | some indent => simp [hp, hs] at hr

/-- An ascending list without repetition is strictly ascending. -/
theorem nodup_sorted_lt (l : List String) (h : List.Sorted strLe l) (hn : l.Nodup) :
    List.Sorted strLt l := by
  unfold List.Sorted at *
  have := h.and hn
  refine this.imp ?_
  rintro a b ⟨hle, hne⟩
  exact @lt_of_le_of_ne (List Char) _ _ _ hle (fun h => hne (String.ext h))

/-- A call only appends to the output. -/
theorem printpkg_stdout (fl : Flags) (imp : Importer) (t : Template) (x : String) (d : Int)
    (s : State) :
    (printpkg fl imp t x d s).final.stdout = s.stdout ++ appended s (printpkg fl imp t x d s) := by
  obtain ⟨new, -, h, -⟩ := printpkg_failStop fl imp t x d s
  rw [appended_eq s _ _ h, h]

/-- The output of the loop over the dependencies. -/
theorem forEach_stdout (fl : Flags) (imp : Importer) (t : Template) (d : Int) :
    ∀ (xs : List String) (s : State),
      (forEach (fun dep st => printpkg fl imp t dep d st) xs s).final.stdout =
        s.stdout ++ childrenOut fl imp t d xs s := by
  intro xs
  induction xs with
  | nil => intro s; simp [forEach, childrenOut, Outcome.final]
  | cons x xs ih =>
    intro s
    have h1 := printpkg_stdout fl imp t x d s
    simp only [forEach, childrenOut]
    cases ho : printpkg fl imp t x d s with
    | ok u s1 =>
      rw [ho] at h1
      simp only [Outcome.final] at h1
      simp only [ih s1, h1, String.append_assoc]
    | fatal p e s1 =>
      rw [ho] at h1
      simp only [Outcome.final] at h1 ⊢
      rw [h1]; simp
    | panic s1 =>
      rw [ho] at h1
      simp only [Outcome.final] at h1 ⊢
      rw [h1]; simp

/-- The run of a rendered node alone: it returns, having written the node's block. -/
theorem node_run (fl : Flags) (imp : Importer) (t : Template) (x : String) (d : Int)
    (s : State) (pkg : Package) (hf : fake x = false)
    (hres : s.pkgcache x = some pkg ∨ (s.pkgcache x = none ∧ imp x = .ok pkg))
    (hskip : (pkg.Goroot && !fl.stdlib) = false)
    (hrend : s.printcache (d, pkg.ImportPath) ≠ none ∨ 0 ≤ d) :
    ∃ s3, printpkg (fl.upTo d) imp t x d s = .ok () s3 ∧
      s3.stdout = s.stdout ++
        (match s.printcache (d, pkg.ImportPath) with
          | some out => out
          | none => t pkg (String.mk (List.replicate (d * 2).toNat ' '))) := by
  have hx : ¬ (x = "C" ∨ x = "unsafe") := by
    simp only [fake, Bool.or_eq_false_iff, beq_eq_false_iff_ne] at hf
    exact fun h => h.elim hf.1 hf.2
  have hskip' : (pkg.Goroot && !(fl.upTo d).stdlib) = false := hskip
  have hup : d + 1 > (fl.upTo d).maxdepth := by simp [Flags.upTo]
  have hl : ∃ slot s1, loadpkg imp x { s with trace := s.trace ++ [Event.load x d] }
      = .ok (slot, pkg) s1 ∧ s1.printcache = s.printcache ∧ s1.stdout = s.stdout := by
    unfold loadpkg
    rcases hres with h1 | ⟨h1, h2⟩
    · exact ⟨x, { s with trace := s.trace ++ [Event.load x d] }, by simp [h1], rfl, rfl⟩
    · exact ⟨pkg.ImportPath,
        { s with
          trace := s.trace ++ [Event.load x d, Event.resolve x]
          pkgcache := Function.update s.pkgcache pkg.ImportPath (some pkg) },
        by simp [h1, h2], rfl, rfl⟩
  obtain ⟨slot, s1, hl, hpc, hso⟩ := hl
  rw [printpkg_eq]
  simp only [hx, if_false, hl, hskip', Bool.false_eq_true, if_pos hup]
  unfold render
  rw [hpc, hso]
  cases hp : s.printcache (d, pkg.ImportPath) with
  | some out => exact ⟨_, rfl, rfl⟩
  | none =>
    have hd : 0 ≤ d := by
      rcases hrend with h | h
      · exact absurd hp h
      · exact h
    have hs : spaces d = some (String.mk (List.replicate (d * 2).toNat ' ')) := by
      unfold spaces
      rw [if_neg (by omega)]
    simp only [hs]
    exact ⟨_, rfl, rfl⟩

/-- C1 (amended).  End-to-end example: empty caches, GOROOT packages excluded, test and external
test modes off, max depth 1, the default template, and a resolver in which `A` (outside GOROOT)
has the direct imports `[C, B]` and `B` (outside GOROOT) resolves.  Then `printpkg("A", t, 0)`
returns, has written exactly `"A:\n  B:\n"`, and has called the external resolver for `A` and
`B` only: `C` is the reserved pseudo-package, skipped without resolution or output, and no
dependency of `B` is resolved. -/
theorem example_output_skips_C (imp : Importer) (pkgA pkgB : Package)
    (hA : imp "A" = .ok pkgA) (hAp : pkgA.ImportPath = "A") (hAg : pkgA.Goroot = false)
    (hAi : pkgA.Imports = ["C", "B"])
    (hB : imp "B" = .ok pkgB) (hBp : pkgB.ImportPath = "B") (hBg : pkgB.Goroot = false) :
    ∃ s', printpkg c1Flags imp defaultTemplate "A" 0 State.init = .ok () s' ∧
      s'.stdout = "A:\n  B:\n" ∧ resolved s'.trace = ["A", "B"] := by
  simp [printpkg_eq, loadpkg, render, sortdeps, forEach, State.init, c1Flags, spaces,
    defaultTemplate, sortStrings, Function.update, hA, hAp, hAg, hAi, hB, hBp, hBg, resolved]

theorem example_output_skips_C_witness :
    ∃ s', printpkg c1Flags c1Importer defaultTemplate "A" 0 State.init = .ok () s' ∧
      s'.stdout = "A:\n  B:\n" ∧ resolved s'.trace = ["A", "B"] :=
  example_output_skips_C c1Importer (mkpkg "A" ["C", "B"]) (mkpkg "B" []) rfl rfl rfl rfl rfl rfl
    rfl

/-- C1 (counterexample).  On the resolver of the example the output is not `"A:\n  B:\n  C:\n"`
with the resolver called for `A`, `B` and `C`. -/
theorem example_output_three_lines_fails :
    ¬ ((printpkg c1Flags c1Importer defaultTemplate "A" 0 State.init).final.stdout
          = "A:\n  B:\n  C:\n" ∧
        resolved (printpkg c1Flags c1Importer defaultTemplate "A" 0 State.init).final.trace
          = ["A", "B", "C"]) := by
  simp [printpkg_eq, loadpkg, render, sortdeps, forEach, State.init, c1Flags, spaces,
    defaultTemplate, sortStrings, Function.update, c1Importer, mkpkg, resolved, Outcome.final]

/-- The blocks written for the children of a node appear in ascending order of the identifiers
they were visited under, and in strictly ascending order when the sorted slice of the package has
no repeated identifier. -/
theorem child_blocks_sorted (fl : Flags) (imp : Importer) (t : Template) (importpath : String)
    (depth : Int) (s : State) :
    List.Sorted strLe
        (blocksAt (depth + 1) (newEvents s (printpkg fl imp t importpath depth s))) ∧
      ∀ pkg, (s.pkgcache importpath = some pkg ∨
          (s.pkgcache importpath = none ∧ imp importpath = .ok pkg)) →
        (sortdeps fl depth pkg).1.Nodup →
        List.Sorted strLt
          (blocksAt (depth + 1) (newEvents s (printpkg fl imp t importpath depth s))) := by
  obtain ⟨n1, h1, -, -, hd1⟩ := node_events fl imp t importpath depth s
  have hnil := atDepth_nil (depth + 1) n1
    (fun e he k hk => by have := hd1 e he k hk; omega)
  rcases printpkg_split fl imp t importpath depth s with
    h | ⟨pkg', s3, -, hres', -, -, hnode, hrec⟩
  · rw [h, newEvents_eq s _ n1 h1, hnil.2]
    exact ⟨List.sorted_nil, fun _ _ _ => List.sorted_nil⟩
  · rw [hnode] at h1
    simp only [Outcome.final] at h1
    obtain ⟨n2, h2, b2, -⟩ := forEach_children fl imp t (depth + 1) (sortdeps fl depth pkg').1 s3
    rw [← hrec] at h2
    rw [newEvents_eq s _ (n1 ++ n2) (by rw [h2, h1, List.append_assoc]), blocksAt_append,
      hnil.2, List.nil_append]
    have hs : List.Sorted strLe (sortdeps fl depth pkg').1 := by
      rw [sortdeps_fst]; exact sortStrings_sorted _
    have hsorted : List.Sorted strLe (blocksAt (depth + 1) n2) := List.Pairwise.sublist b2 hs
    refine ⟨hsorted, ?_⟩
    intro pkg hres hnd
    have : pkg' = pkg := by
      rcases hres with h1 | ⟨h1, h2⟩ <;> rcases hres' with h3 | ⟨h3, h4⟩
      · rw [h1] at h3; exact (Option.some.inj h3).symm
      · rw [h1] at h3; cases h3
      · rw [h1] at h3; cases h3
      · rw [h2] at h4; cases h4; rfl
    subst this
    exact nodup_sorted_lt _ hsorted (hnd.sublist b2)

/-- C2.  For every resolver whose dependency lists name no identifier twice (as the lists of
`build.Import` do), every configuration and every call of `printpkg` at depth `depth`, the blocks
written for the children of the node (the blocks at `depth + 1`) appear in strictly ascending
lexicographic order of their identifiers. -/
theorem sibling_blocks_strictly_ascending (fl : Flags) (imp : Importer) (t : Template)
    (importpath : String) (depth : Int) (s : State)
    (hset : ∀ pkg, (s.pkgcache importpath = some pkg ∨
        (s.pkgcache importpath = none ∧ imp importpath = .ok pkg)) →
      pkg.Imports.Nodup ∧ pkg.TestImports.Nodup ∧ pkg.XTestImports.Nodup) :
    List.Sorted strLt
      (blocksAt (depth + 1) (newEvents s (printpkg fl imp t importpath depth s))) := by
  obtain ⟨n1, h1, -, -, hd1⟩ := node_events fl imp t importpath depth s
  have hnil := atDepth_nil (depth + 1) n1
    (fun e he k hk => by have := hd1 e he k hk; omega)
  rcases printpkg_split fl imp t importpath depth s with
    h | ⟨pkg, s3, -, hres, -, -, hnode, hrec⟩
  · rw [h, newEvents_eq s _ n1 h1, hnil.2]
    exact List.sorted_nil
  · rw [hnode] at h1
    simp only [Outcome.final] at h1
    obtain ⟨n2, h2, b2, -⟩ := forEach_children fl imp t (depth + 1) (sortdeps fl depth pkg).1 s3
    rw [← hrec] at h2
    rw [newEvents_eq s _ (n1 ++ n2) (by rw [h2, h1, List.append_assoc]), blocksAt_append,
      hnil.2, List.nil_append]
    have hs : List.Sorted strLe (sortdeps fl depth pkg).1 := by
      rw [sortdeps_fst]; exact sortStrings_sorted _
    have hnd : (sortdeps fl depth pkg).1.Nodup := by
      obtain ⟨ha, hb, hc⟩ := hset pkg hres
      rw [sortdeps_fst]
      refine (List.Perm.nodup_iff (sortStrings_perm _)).mpr ?_
      split
      · exact hb
      · split
        · exact hc
        · exact ha
    exact nodup_sorted_lt _ (List.Pairwise.sublist b2 hs) (hnd.sublist b2)

theorem sibling_blocks_strictly_ascending_witness :
    List.Sorted strLt
      (blocksAt (0 + 1)
        (newEvents State.init (printpkg c1Flags c2Importer defaultTemplate "A" 0 State.init))) :=
  sibling_blocks_strictly_ascending c1Flags c2Importer defaultTemplate "A" 0 State.init (by
    intro pkg h
    rcases h with h | ⟨-, h⟩
    · simp [State.init] at h
    · have : pkg = mkpkg "A" ["D", "B"] := by
        simp [c2Importer] at h
        exact h.symm
      subst this
      decide)

/-- The children of `A`, listed as `D`, `B`, are written as `B`, `D`. -/
theorem sibling_blocks_example :
    blocksAt 1
      (newEvents State.init (printpkg c1Flags c2Importer defaultTemplate "A" 0 State.init))
      = ["B", "D"] := by
  simp [printpkg_eq, loadpkg, render, sortdeps, forEach, State.init, c1Flags, spaces,
    defaultTemplate, sortStrings, Function.update, c2Importer, mkpkg, newEvents, Outcome.final,
    blocksAt]

/-- C3 (amended).  For every max depth `D` and every traversal started by `printpkg` at depth 0,
every `loadpkg` call, template execution and block written happens at a depth between `0` and
`max D 0`, and every call of the external resolver is made by one of these `loadpkg` calls: no
node deeper than `max D 0` is rendered or resolved. -/
theorem depth_bound_from_root (fl : Flags) (imp : Importer) (t : Template) (importpath : String) (s : State) :
    (∀ e ∈ newEvents s (printpkg fl imp t importpath 0 s), ∀ k, e.depth? = some k →
        0 ≤ k ∧ k ≤ max fl.maxdepth 0) ∧
      List.Sublist (resolved (newEvents s (printpkg fl imp t importpath 0 s)))
        (loaded (newEvents s (printpkg fl imp t importpath 0 s))) := by
  obtain ⟨new, h, hp⟩ := printpkg_depths fl imp t importpath 0 s
  rw [newEvents_eq s _ new h]
  exact hp

/-- C3 (counterexample).  With max depth `-1` the root is rendered at depth `0`, which is greater
than the max depth. -/
theorem negative_maxdepth_renders_root :
    ¬ (∀ e ∈ newEvents State.init (printpkg c3Flags c1Importer defaultTemplate "A" 0 State.init),
        ∀ k, e.depth? = some k → k ≤ c3Flags.maxdepth) := by
  intro h
  have := h (Event.write "A" 0 "A" "A:\n") (by
    simp [printpkg_eq, loadpkg, render, sortdeps, forEach, State.init, c3Flags, spaces,
      defaultTemplate, sortStrings, Function.update, c1Importer, mkpkg, newEvents, Outcome.final]) 0 rfl
  simp [c3Flags] at this

/-- C4.  When `stdlib` is false and the identifier resolves (from the cache or through the
external resolver) to a package with `Goroot` set, `printpkg` returns at every depth, writes
nothing, leaves `printcache` unchanged, and logs nothing but its own `loadpkg` call: no
dependency is visited. -/
theorem goroot_skipped (fl : Flags) (imp : Importer) (t : Template) (importpath : String) (depth : Int)
    (s : State) (pkg : Package) (hstd : fl.stdlib = false)
    (hres : s.pkgcache importpath = some pkg ∨
      (s.pkgcache importpath = none ∧ imp importpath = .ok pkg))
    (hg : pkg.Goroot = true) :
    ∃ s', printpkg fl imp t importpath depth s = .ok () s' ∧
      s'.stdout = s.stdout ∧ s'.printcache = s.printcache ∧
      ∀ e ∈ newEvents s (printpkg fl imp t importpath depth s),
        e = Event.load importpath depth ∨ e = Event.resolve importpath := by
  rw [printpkg_eq]
  by_cases hf : importpath = "C" ∨ importpath = "unsafe"
  · simp [hf, newEvents, Outcome.final]
  · rcases hres with hc | ⟨hc, hi⟩
    · simp [hf, loadpkg, hc, hg, hstd, newEvents, Outcome.final]
    · simp [hf, loadpkg, hc, hi, hg, hstd, newEvents, Outcome.final]

theorem goroot_skipped_witness :
    ∃ s', printpkg c1Flags c4Importer defaultTemplate "fmt" 0 State.init = .ok () s' ∧
      s'.stdout = State.init.stdout ∧ s'.printcache = State.init.printcache ∧
      ∀ e ∈ newEvents State.init (printpkg c1Flags c4Importer defaultTemplate "fmt" 0 State.init),
        e = Event.load "fmt" 0 ∨ e = Event.resolve "fmt" :=
  goroot_skipped c1Flags c4Importer defaultTemplate "fmt" 0 State.init c4Pkg rfl
    (Or.inr ⟨rfl, rfl⟩) rfl

/-- C5.  For a rendered node whose call completes and may recurse (`depth + 1 <= maxdepth`), the
identifiers resolved at `depth + 1` are, in sorted order and without the two pseudo-packages
(which `printpkg` ignores), the test imports when `testimports` is on and `depth = 0`, else the
external test imports when `xtestimports` is on and `depth = 0`, else the direct imports; so at
every depth other than `0` they are the direct imports whatever the two flags are. -/
theorem recursion_follows_chosen_imports (fl : Flags) (imp : Importer) (t : Template) (importpath : String) (depth : Int)
    (s : State) (pkg : Package)
    (hfake : importpath ≠ "C" ∧ importpath ≠ "unsafe")
    (hres : s.pkgcache importpath = some pkg ∨
      (s.pkgcache importpath = none ∧ imp importpath = .ok pkg))
    (hskip : ¬ (pkg.Goroot = true ∧ fl.stdlib = false))
    (hdepth : depth + 1 ≤ fl.maxdepth)
    (hok : ∃ s', printpkg fl imp t importpath depth s = .ok () s') :
    loadsAt (depth + 1) (newEvents s (printpkg fl imp t importpath depth s)) =
      (sortStrings (if fl.testimports = true ∧ depth = 0 then pkg.TestImports
        else if fl.xtestimports = true ∧ depth = 0 then pkg.XTestImports
        else pkg.Imports)).filter (fun x => !fake x) := by
  have hf : fake importpath = false := by
    simp only [fake, Bool.or_eq_false_iff, beq_eq_false_iff_ne]
    exact hfake
  have hsk : (pkg.Goroot && !fl.stdlib) = false := by
    cases hg : pkg.Goroot <;> cases hs : fl.stdlib <;> simp_all
  obtain ⟨n1, h1, -, -, hd1⟩ := node_events fl imp t importpath depth s
  rcases printpkg_rec fl imp t importpath depth s pkg hf hres hsk hdepth with
    ⟨s3, hnode, hrec⟩ | ⟨⟨s3, hp⟩, heq⟩
  · rw [hnode] at h1
    simp only [Outcome.final] at h1
    obtain ⟨n2, h2, -, l2⟩ := forEach_children fl imp t (depth + 1) (sortdeps fl depth pkg).1 s3
    have hnil := atDepth_nil (depth + 1) n1
      (fun e he k hk => by have := hd1 e he k hk; omega)
    rw [← hrec] at h2 l2
    rw [newEvents_eq s _ (n1 ++ n2) (by rw [h2, h1, List.append_assoc]), loadsAt_append,
      hnil.1, List.nil_append, l2 hok, sortdeps_fst]
  · obtain ⟨s', hs'⟩ := hok
    rw [heq, hp] at hs'
    cases hs'

theorem recursion_follows_chosen_imports_witness :
    loadsAt (0 + 1) (newEvents State.init (printpkg c5Flags c5Importer defaultTemplate "A" 0
        State.init)) =
      (sortStrings (if c5Flags.testimports = true ∧ (0 : Int) = 0 then c5Pkg.TestImports
        else if c5Flags.xtestimports = true ∧ (0 : Int) = 0 then c5Pkg.XTestImports
        else c5Pkg.Imports)).filter (fun x => !fake x) :=
  recursion_follows_chosen_imports c5Flags c5Importer defaultTemplate "A" 0 State.init c5Pkg (by decide)
    (Or.inr ⟨rfl, rfl⟩) (by decide) (by decide)
    (by
      simp [printpkg_eq, loadpkg, render, sortdeps, forEach, State.init, c5Flags, spaces,
        defaultTemplate, sortStrings, Function.update, c5Importer, c5Pkg, mkpkg])

/-- C6.  For the identifiers `C` and `unsafe`, at every depth, under every configuration and in
every state, `printpkg` returns with the state unchanged: no output, no call of `loadpkg` or of
the external resolver, no recursion, both caches as they were. -/
theorem pseudo_packages_ignored (fl : Flags) (imp : Importer) (t : Template) (depth : Int) (s : State) :
    printpkg fl imp t "C" depth s = .ok () s ∧ printpkg fl imp t "unsafe" depth s = .ok () s := by
  constructor <;> rw [printpkg_eq] <;> simp

/-- C7.  Pre-order: for a node that is rendered at depth `depth`, the bytes `printpkg` writes are
the block of the node (the cached bytes, or else the template output), followed, when
`depth + 1 <= maxdepth`, by the outputs of `printpkg` at `depth + 1` on the chosen dependencies
in sorted order, each run from the state the previous one left (the first from the state `s3`
that rendering the node alone leaves); when `depth + 1 > maxdepth` they are the block alone. -/
theorem preorder_output (fl : Flags) (imp : Importer) (t : Template) (importpath : String) (depth : Int)
    (s : State) (pkg : Package)
    (hfake : importpath ≠ "C" ∧ importpath ≠ "unsafe")
    (hres : s.pkgcache importpath = some pkg ∨
      (s.pkgcache importpath = none ∧ imp importpath = .ok pkg))
    (hskip : ¬ (pkg.Goroot = true ∧ fl.stdlib = false))
    (hrend : s.printcache (depth, pkg.ImportPath) ≠ none ∨ 0 ≤ depth) :
    ∃ s3 block, printpkg (fl.upTo depth) imp t importpath depth s = .ok () s3 ∧
      s3.stdout = s.stdout ++ block ∧
      block = (match s.printcache (depth, pkg.ImportPath) with
        | some out => out
        | none => t pkg (String.mk (List.replicate (depth * 2).toNat ' '))) ∧
      appended s (printpkg fl imp t importpath depth s) =
        block ++
          (if depth + 1 ≤ fl.maxdepth then
            childrenOut fl imp t (depth + 1)
              (sortStrings (if fl.testimports = true ∧ depth = 0 then pkg.TestImports
                else if fl.xtestimports = true ∧ depth = 0 then pkg.XTestImports
                else pkg.Imports)) s3
          else "") := by
  have hf : fake importpath = false := by
    simp only [fake, Bool.or_eq_false_iff, beq_eq_false_iff_ne]
    exact hfake
  have hsk : (pkg.Goroot && !fl.stdlib) = false := by
    cases hg : pkg.Goroot <;> cases hs : fl.stdlib <;> simp_all
  obtain ⟨s3, hnode, hout⟩ := node_run fl imp t importpath depth s pkg hf hres hsk hrend
  refine ⟨s3, _, hnode, hout, rfl, ?_⟩
  apply appended_eq
  by_cases hd : depth + 1 ≤ fl.maxdepth
  · rw [if_pos hd]
    rcases printpkg_rec fl imp t importpath depth s pkg hf hres hsk hd with
      ⟨s3', hnode', hrec⟩ | ⟨⟨s3', hp⟩, -⟩
    · rw [hnode] at hnode'
      cases hnode'
      rw [hrec, forEach_stdout, hout, sortdeps_fst, String.append_assoc]
    · rw [hnode] at hp; cases hp
  · rw [if_neg hd]
    rcases printpkg_split fl imp t importpath depth s with h | ⟨_, _, -, -, -, hd', -, -⟩
    · rw [h, hnode]
      simp [Outcome.final, hout]
    · exact absurd hd' hd

theorem preorder_output_witness :
    ∃ s3 block, printpkg (c1Flags.upTo 0) c1Importer defaultTemplate "A" 0 State.init
        = .ok () s3 ∧
      s3.stdout = State.init.stdout ++ block ∧
      block = (match State.init.printcache (0, (mkpkg "A" ["C", "B"]).ImportPath) with
        | some out => out
        | none => defaultTemplate (mkpkg "A" ["C", "B"])
            (String.mk (List.replicate ((0 : Int) * 2).toNat ' '))) ∧
      appended State.init (printpkg c1Flags c1Importer defaultTemplate "A" 0 State.init) =
        block ++
          (if (0 : Int) + 1 ≤ c1Flags.maxdepth then
            childrenOut c1Flags c1Importer defaultTemplate (0 + 1)
              (sortStrings (if c1Flags.testimports = true ∧ (0 : Int) = 0
                then (mkpkg "A" ["C", "B"]).TestImports
                else if c1Flags.xtestimports = true ∧ (0 : Int) = 0
                then (mkpkg "A" ["C", "B"]).XTestImports
                else (mkpkg "A" ["C", "B"]).Imports)) s3
          else "") :=
  preorder_output c1Flags c1Importer defaultTemplate "A" 0 State.init (mkpkg "A" ["C", "B"]) (by decide)
    (Or.inr ⟨rfl, rfl⟩) (by decide) (Or.inr (le_refl 0))

/-- C8.  If during the traversal of the roots the external resolver is called for `p` and fails
with `err`, the invocation ends in `fatal p err`; the failed call is the last event of the run,
the output is what the events before it wrote, and every earlier resolution succeeded. -/
theorem resolve_failure_is_fatal (fl : Flags) (imp : Importer) (t : Template) (args : List String) (s : State)
    (p err : String)
    (hres : Event.resolve p ∈ newEvents s (mainLoop fl imp t args s))
    (herr : imp p = .error err) :
    ∃ s' pre, mainLoop fl imp t args s = .fatal p err s' ∧
      s'.trace = s.trace ++ pre ++ [Event.resolve p] ∧
      s'.stdout = s.stdout ++ written pre ∧
      ∀ q ∈ resolved pre, ∃ pkg, imp q = .ok pkg := by
  obtain ⟨new, htr, hout, hfs⟩ := mainLoop_failStop fl imp t args s
  rw [newEvents_eq s _ new htr] at hres
  have hmem : ∀ l : List Event, Event.resolve p ∈ l → p ∈ resolved l :=
    fun l h => (mem_resolved p l).mp h
  cases ho : mainLoop fl imp t args s with
  | ok u s' =>
    rw [ho] at hfs
    obtain ⟨pkg, hpkg⟩ := hfs p (hmem new hres)
    rw [herr] at hpkg; cases hpkg
  | panic s' =>
    rw [ho] at hfs
    obtain ⟨pkg, hpkg⟩ := hfs p (hmem new hres)
    rw [herr] at hpkg; cases hpkg
  | fatal q e s' =>
    rw [ho] at hfs htr hout
    simp only [failStop] at hfs
    simp only [Outcome.final] at htr hout
    obtain ⟨he, pre, hpre, hok⟩ := hfs
    subst hpre
    have hq : p = q := by
      rcases List.mem_append.mp hres with h | h
      · obtain ⟨pkg, hpkg⟩ := hok p (hmem pre h)
        rw [herr] at hpkg; cases hpkg
      · simpa using h
    subst hq
    rw [herr] at he
    cases he
    refine ⟨s', pre, rfl, by rw [htr, List.append_assoc], ?_, hok⟩
    rw [hout, written_append]
    simp [written]

theorem resolve_failure_is_fatal_witness :
    ∃ s' pre, mainLoop c1Flags c8Importer defaultTemplate ["A", "D"] State.init
        = .fatal "Z" "cannot find package" s' ∧
      s'.trace = State.init.trace ++ pre ++ [Event.resolve "Z"] ∧
      s'.stdout = State.init.stdout ++ written pre ∧
      ∀ q ∈ resolved pre, ∃ pkg, c8Importer q = .ok pkg :=
  resolve_failure_is_fatal c1Flags c8Importer defaultTemplate ["A", "D"] State.init "Z" "cannot find package"
    (by
      simp [mainLoop, printpkg_eq, loadpkg, render, sortdeps, forEach, State.init, c1Flags,
        spaces, defaultTemplate, sortStrings, Function.update, c8Importer, mkpkg, newEvents,
        Outcome.final])
    rfl

/-- The loop over the dependencies keeps the render-cache invariant. -/
theorem forEach_cacheInv (fl : Flags) (imp : Importer) (t : Template) (d : Int)
    (xs : List String) (s : State) :
    ∃ new, (forEach (fun dep st => printpkg fl imp t dep d st) xs s).final.trace
        = s.trace ++ new ∧
      cacheInv s new (forEach (fun dep st => printpkg fl imp t dep d st) xs s).final := by
  apply forEach_events (fun s new o => cacheInv s new o.final)
  · intro s; exact cacheInv_refl s
  · rintro a b o n1 n2 - - h1 h2
    exact cacheInv_seq a b o.final n1 n2 h1 h2
  · intro x st
    exact printpkg_cacheInv fl imp t x d st

/-- The run of a rendered node alone writes the node's block and leaves it in the render
cache. -/
theorem node_render (fl : Flags) (imp : Importer) (t : Template) (x : String) (d : Int)
    (s : State) (pkg : Package) (hf : fake x = false)
    (hres : s.pkgcache x = some pkg ∨ (s.pkgcache x = none ∧ imp x = .ok pkg))
    (hskip : (pkg.Goroot && !fl.stdlib) = false)
    (hrend : s.printcache (d, pkg.ImportPath) ≠ none ∨ 0 ≤ d) :
    ∃ s3, printpkg (fl.upTo d) imp t x d s = .ok () s3 ∧
      s3.stdout = s.stdout ++
        (match s.printcache (d, pkg.ImportPath) with
          | some out => out
          | none => t pkg (String.mk (List.replicate (d * 2).toNat ' '))) ∧
      s3.printcache (d, pkg.ImportPath) =
        some (match s.printcache (d, pkg.ImportPath) with
          | some out => out
          | none => t pkg (String.mk (List.replicate (d * 2).toNat ' '))) := by
  have hx : ¬ (x = "C" ∨ x = "unsafe") := by
    simp only [fake, Bool.or_eq_false_iff, beq_eq_false_iff_ne] at hf
    exact fun h => h.elim hf.1 hf.2
  have hskip' : (pkg.Goroot && !(fl.upTo d).stdlib) = false := hskip
  have hup : d + 1 > (fl.upTo d).maxdepth := by simp [Flags.upTo]
  have hl : ∃ slot s1, loadpkg imp x { s with trace := s.trace ++ [Event.load x d] }
      = .ok (slot, pkg) s1 ∧ s1.printcache = s.printcache ∧ s1.stdout = s.stdout := by
    unfold loadpkg
    rcases hres with h1 | ⟨h1, h2⟩
    · exact ⟨x, { s with trace := s.trace ++ [Event.load x d] }, by simp [h1], rfl, rfl⟩
    · exact ⟨pkg.ImportPath,
        { s with
          trace := s.trace ++ [Event.load x d, Event.resolve x]
          pkgcache := Function.update s.pkgcache pkg.ImportPath (some pkg) },
        by simp [h1, h2], rfl, rfl⟩
  obtain ⟨slot, s1, hl, hpc, hso⟩ := hl
  rw [printpkg_eq]
  simp only [hx, if_false, hl, hskip', Bool.false_eq_true, if_pos hup]
  unfold render
  rw [hpc, hso]
  cases hp : s.printcache (d, pkg.ImportPath) with
  | some out => exact ⟨_, rfl, rfl, by simp only [hpc, hp]⟩
  | none =>
    have hd : 0 ≤ d := by
      rcases hrend with h | h
      · exact absurd hp h
      · exact h
    have hs : spaces d = some (String.mk (List.replicate (d * 2).toNat ' ')) := by
      unfold spaces
      rw [if_neg (by omega)]
    simp only [hs]
    exact ⟨_, rfl, rfl, Function.update_same (d, pkg.ImportPath) _ s.printcache⟩

/-- C9.  A render request for a `(depth, ImportPath)` pair that is in the render cache writes the
cached bytes verbatim, leaves them cached and does not execute the template for the pair; a
request for a pair that is not cached writes the template's output and caches it; no call of
`printpkg` changes or removes a cached block.  Over one run of all roots, from any state, the
output is the concatenation of the blocks written, two blocks written for the same pair are
byte-identical, and the template is executed at most once per pair. -/
theorem render_cache_replays (fl : Flags) (imp : Importer) (t : Template) :
    (∀ (importpath : String) (depth : Int) (st : State) (pkg : Package) (out : String),
      importpath ≠ "C" ∧ importpath ≠ "unsafe" →
      (st.pkgcache importpath = some pkg ∨
        (st.pkgcache importpath = none ∧ imp importpath = .ok pkg)) →
      ¬ (pkg.Goroot = true ∧ fl.stdlib = false) →
      st.printcache (depth, pkg.ImportPath) = some out →
      (∃ rest, (printpkg fl imp t importpath depth st).final.stdout
          = st.stdout ++ out ++ rest) ∧
        (printpkg fl imp t importpath depth st).final.printcache (depth, pkg.ImportPath)
          = some out ∧
        Event.execute depth pkg.ImportPath ∉
          newEvents st (printpkg fl imp t importpath depth st)) ∧
    (∀ (importpath : String) (depth : Int) (st : State) (pkg : Package),
      importpath ≠ "C" ∧ importpath ≠ "unsafe" →
      (st.pkgcache importpath = some pkg ∨
        (st.pkgcache importpath = none ∧ imp importpath = .ok pkg)) →
      ¬ (pkg.Goroot = true ∧ fl.stdlib = false) →
      st.printcache (depth, pkg.ImportPath) = none → 0 ≤ depth →
      (∃ rest, (printpkg fl imp t importpath depth st).final.stdout
          = st.stdout ++ t pkg (String.mk (List.replicate (depth * 2).toNat ' ')) ++ rest) ∧
        (printpkg fl imp t importpath depth st).final.printcache (depth, pkg.ImportPath)
          = some (t pkg (String.mk (List.replicate (depth * 2).toNat ' ')))) ∧
    (∀ (importpath : String) (depth : Int) (st : State) (k : Int × String) (v : String),
      st.printcache k = some v →
      (printpkg fl imp t importpath depth st).final.printcache k = some v) ∧
    (∀ (args : List String) (s : State),
      (mainLoop fl imp t args s).final.stdout
          = s.stdout ++ written (newEvents s (mainLoop fl imp t args s)) ∧
        (∀ k v, s.printcache k = some v →
          (mainLoop fl imp t args s).final.printcache k = some v) ∧
        (∀ i1 i2 d p out1 out2,
          Event.write i1 d p out1 ∈ newEvents s (mainLoop fl imp t args s) →
          Event.write i2 d p out2 ∈ newEvents s (mainLoop fl imp t args s) → out1 = out2) ∧
        ∀ d p, (newEvents s (mainLoop fl imp t args s)).count (Event.execute d p) ≤ 1) := by
  have hreq : ∀ (importpath : String) (depth : Int) (st : State) (pkg : Package),
      importpath ≠ "C" ∧ importpath ≠ "unsafe" →
      (st.pkgcache importpath = some pkg ∨
        (st.pkgcache importpath = none ∧ imp importpath = .ok pkg)) →
      ¬ (pkg.Goroot = true ∧ fl.stdlib = false) →
      (st.printcache (depth, pkg.ImportPath) ≠ none ∨ 0 ≤ depth) →
      (∃ rest, (printpkg fl imp t importpath depth st).final.stdout
          = st.stdout ++
            (match st.printcache (depth, pkg.ImportPath) with
              | some out => out
              | none => t pkg (String.mk (List.replicate (depth * 2).toNat ' '))) ++ rest) ∧
        (printpkg fl imp t importpath depth st).final.printcache (depth, pkg.ImportPath)
          = some (match st.printcache (depth, pkg.ImportPath) with
              | some out => out
              | none => t pkg (String.mk (List.replicate (depth * 2).toNat ' '))) := by
    intro importpath depth st pkg hfake hres hskip hrend
    have hf : fake importpath = false := by
      simp only [fake, Bool.or_eq_false_iff, beq_eq_false_iff_ne]
      exact hfake
    have hsk : (pkg.Goroot && !fl.stdlib) = false := by
      cases hg : pkg.Goroot <;> cases hs : fl.stdlib <;> simp_all
    obtain ⟨s3, hnode, hout, hpc⟩ := node_render fl imp t importpath depth st pkg hf hres hsk hrend
    by_cases hd : depth + 1 ≤ fl.maxdepth
    · rcases printpkg_rec fl imp t importpath depth st pkg hf hres hsk hd with
        ⟨s3', hnode', hrec⟩ | ⟨⟨s3', hp⟩, -⟩
      · rw [hnode] at hnode'
        cases hnode'
        obtain ⟨new, -, hinv⟩ :=
          forEach_cacheInv fl imp t (depth + 1) (sortdeps fl depth pkg).1 s3
        rw [hrec]
        exact ⟨⟨_, by rw [forEach_stdout, hout]⟩, hinv.1 _ _ hpc⟩
      · rw [hnode] at hp; cases hp
    · rcases printpkg_split fl imp t importpath depth st with h | ⟨_, _, -, -, -, hd', -, -⟩
      · rw [h, hnode]
        exact ⟨⟨"", by simp [Outcome.final, hout]⟩, hpc⟩
      · exact absurd hd' hd
  refine ⟨?_, ?_, ?_, ?_⟩
  · intro importpath depth st pkg out hfake hres hskip hc
    have h := hreq importpath depth st pkg hfake hres hskip (Or.inl (by rw [hc]; simp))
    rw [hc] at h
    refine ⟨h.1, h.2, ?_⟩
    obtain ⟨new, htr, -, -, hex, -, -⟩ := printpkg_cacheInv fl imp t importpath depth st
    rw [newEvents_eq st _ new htr]
    intro hmem
    have := hex depth pkg.ImportPath hmem
    rw [hc] at this
    cases this
  · intro importpath depth st pkg hfake hres hskip hc hd
    have h := hreq importpath depth st pkg hfake hres hskip (Or.inr hd)
    rw [hc] at h
    exact h
  · intro importpath depth st k v hk
    obtain ⟨new, -, ha, -⟩ := printpkg_cacheInv fl imp t importpath depth st
    exact ha k v hk
  · intro args s
    obtain ⟨new, htr, ha, hb, -, -, hd⟩ := mainLoop_cacheInv fl imp t args s
    obtain ⟨new', htr', hout, -⟩ := mainLoop_failStop fl imp t args s
    have hnn : new' = new := List.append_cancel_left (htr'.symm.trans htr)
    subst hnn
    rw [newEvents_eq s _ new' htr]
    refine ⟨hout, ha, ?_, hd⟩
    intro i1 i2 d p out1 out2 h1 h2
    have e1 := hb i1 d p out1 h1
    have e2 := hb i2 d p out2 h2
    rw [e1] at e2
    exact Option.some.inj e2

theorem render_cache_replays_witness :
    (∃ rest, (printpkg c1Flags c1Importer defaultTemplate "B" 0 c9State).final.stdout
        = c9State.stdout ++ "cached\n" ++ rest) ∧
      (printpkg c1Flags c1Importer defaultTemplate "B" 0 c9State).final.printcache
        (0, (mkpkg "B" []).ImportPath) = some "cached\n" ∧
      Event.execute 0 (mkpkg "B" []).ImportPath ∉
        newEvents c9State (printpkg c1Flags c1Importer defaultTemplate "B" 0 c9State) :=
  (render_cache_replays c1Flags c1Importer defaultTemplate).1 "B" 0 c9State (mkpkg "B" [])
    "cached\n" (by decide) (Or.inr ⟨rfl, rfl⟩) (by decide) (by
      simp [c9State, mkpkg])

/-- The roots `A`, `B`, `A`: the second visit of `A` replays both cached blocks. -/
theorem render_cache_example :
    (mainLoop c1Flags c1Importer defaultTemplate ["A", "B", "A"] State.init).final.stdout
        = "A:\n  B:\nB:\nA:\n  B:\n" ∧
      (newEvents State.init
        (mainLoop c1Flags c1Importer defaultTemplate ["A", "B", "A"] State.init)).count
          (Event.execute 0 "A") = 1 := by
  simp [mainLoop, printpkg_eq, loadpkg, render, sortdeps, forEach, State.init, c1Flags, spaces,
    defaultTemplate, sortStrings, Function.update, c1Importer, mkpkg, newEvents, Outcome.final]

/-- C10.  If `loadpkg(importpath)` returns a package whose `ImportPath` is `importpath`, a second
call right after it returns the same package (the same cache entry) and leaves the state as it
is; the two calls together call the external resolver at most once. -/
theorem loadpkg_twice (imp : Importer) (importpath : String) (s s1 : State) (slot : String)
    (pkg : Package) (h1 : loadpkg imp importpath s = .ok (slot, pkg) s1)
    (hcanon : pkg.ImportPath = importpath) :
    loadpkg imp importpath s1 = .ok (slot, pkg) s1 ∧
      (resolved (newEvents s (loadpkg imp importpath s))).length ≤ 1 := by
  unfold loadpkg at h1
  cases hc : s.pkgcache importpath with
  | some p =>
    simp [hc] at h1
    obtain ⟨⟨rfl, rfl⟩, rfl⟩ := h1
    simp [loadpkg, hc, newEvents, Outcome.final, resolved]
  | none =>
    cases hi : imp importpath with
    | error err => simp [hc, hi] at h1
    | ok p =>
      simp [hc, hi] at h1
      obtain ⟨⟨rfl, rfl⟩, rfl⟩ := h1
      subst hcanon
      simp [loadpkg, hc, hi, newEvents, Outcome.final, resolved]

theorem loadpkg_twice_witness :
    loadpkg c1Importer "B"
        { State.init with
          pkgcache := Function.update State.init.pkgcache "B" (some (mkpkg "B" []))
          trace := [Event.resolve "B"] }
      = .ok ("B", mkpkg "B" [])
        { State.init with
          pkgcache := Function.update State.init.pkgcache "B" (some (mkpkg "B" []))
          trace := [Event.resolve "B"] } ∧
      (resolved (newEvents State.init (loadpkg c1Importer "B" State.init))).length ≤ 1 :=
  loadpkg_twice c1Importer "B" State.init _ "B" (mkpkg "B" []) rfl rfl

/-- When nothing of the first list is left, it is a prefix of the second. -/
theorem dropCommon_nil : ∀ (a b : List String), (dropCommon a b).1 = [] → a <+: b
  | [], b, _ => List.nil_prefix
  | x :: xs, [], h => by simp [dropCommon] at h
  | x :: xs, y :: ys, h => by
    unfold dropCommon at h
    by_cases hxy : x = y
    · subst hxy
      rw [if_pos rfl] at h
      exact (List.prefix_cons_inj x).mpr (dropCommon_nil xs ys h)
    · rw [if_neg hxy] at h
      simp at h

/-- A joined path whose first element is `..` begins with a dot. -/
theorem joinSlash_dotdot (xs : List String) :
    (joinSlash (".." :: xs)).data.head? = some '.' := by
  cases xs with
  | nil => rfl
  | cons b rest => simp [joinSlash, String.data_append]

/-- The error of `getGoSubpath` is `nil` exactly when its result is not empty. -/
theorem getGoSubpath_result (rel : String → String → String × Option String)
    (srcDir wd : String) :
    (getGoSubpath rel srcDir wd).2 = none ↔ (getGoSubpath rel srcDir wd).1 ≠ "" := by
  unfold getGoSubpath
  by_cases hwd : wd = ""
  · simp [hwd]
  · rw [if_neg hwd]
    rcases hr : rel srcDir wd with ⟨relpath, err⟩
    cases err with
    | some e => simp
    | none =>
      by_cases hc : relpath = "" ∨ relpath.data.head? = some '.'
      · simp [hc]
      · simp only [hc, if_false, true_iff]
        exact fun h => hc (Or.inl h)

/-- When `getGoSubpath` returns no error, `Rel` returned its result, and the result is neither empty
nor begins with a dot. -/
theorem getGoSubpath_ok (rel : String → String → String × Option String)
    (srcDir wd : String) (h : (getGoSubpath rel srcDir wd).2 = none) :
    wd ≠ "" ∧ rel srcDir wd = ((getGoSubpath rel srcDir wd).1, none) ∧
      (getGoSubpath rel srcDir wd).1 ≠ "" ∧
      (getGoSubpath rel srcDir wd).1.data.head? ≠ some '.' := by
  unfold getGoSubpath at h ⊢
  by_cases hwd : wd = ""
  · simp [hwd] at h
  · rw [if_neg hwd] at h ⊢
    rcases hr : rel srcDir wd with ⟨relpath, err⟩
    rw [hr] at h
    cases err with
    | some e => simp at h
    | none =>
      by_cases hc : relpath = "" ∨ relpath.data.head? = some '.'
      · simp [hc] at h
      · simp only [hc, if_false]
        exact ⟨hwd, trivial, fun h => hc (Or.inl h), fun h => hc (Or.inr h)⟩

/-- A load listed at a depth is an event of the log. -/
theorem mem_of_loadsAt (p : String) (d : Int) (l : List Event) (h : p ∈ loadsAt d l) :
    Event.load p d ∈ l := by
  induction l with
  | nil => simp [loadsAt] at h
  | cons e es ih =>
    cases e with
    | load q k =>
      by_cases hk : k = d
      · simp only [loadsAt, hk, if_true, List.mem_cons] at h
        rcases h with h | h
        · subst h; subst hk; exact List.mem_cons_self _ _
        · exact List.mem_cons_of_mem _ (ih h)
      · simp only [loadsAt, hk, if_false] at h
        exact List.mem_cons_of_mem _ (ih h)
    | resolve q => exact List.mem_cons_of_mem _ (ih (by simpa [loadsAt] using h))
    | execute k q => exact List.mem_cons_of_mem _ (ih (by simpa [loadsAt] using h))
    | write q k c out => exact List.mem_cons_of_mem _ (ih (by simpa [loadsAt] using h))

/-- After the usage message for an underivable default root, `main` goes on and traverses the
root `""`. -/
theorem main_after_usage (fl : Flags) (sys : Sys) (err : String) (t : Template)
    (hargs : sys.positional = [])
    (herr : (getGoSubpath sys.rel (sys.join sys.gopath "src") sys.getwd.1).2 = some err)
    (hparse : sys.parse (sys.format ++ "\n") = .ok t) :
    (err ++ "\nUsage: " ++ sys.prog ++ " <importpath>\n") ∈ (main fl sys).usages ∧
      (main fl sys).outcome = .ok (mainLoop fl sys.imp t [""] State.init) ∧
      Event.load "" 0 ∈ (mainLoop fl sys.imp t [""] State.init).final.trace := by
  have hfst : (getGoSubpath sys.rel (sys.join sys.gopath "src") sys.getwd.1).1 = "" := by
    by_contra hne
    have := (getGoSubpath_result sys.rel _ _).mpr hne
    rw [herr] at this
    cases this
  refine ⟨?_, ?_, ?_⟩
  · simp [main, mainArgs, hargs, herr]
  · simp [main, mainArgs, hargs, hparse, hfst]
  · obtain ⟨new, hnew, hl, -⟩ := call_events fl sys.imp t "" 0 State.init
    have hmem : Event.load "" 0 ∈ new := mem_of_loadsAt "" 0 new (by rw [hl]; decide)
    have hml : mainLoop fl sys.imp t [""] State.init = printpkg fl sys.imp t "" 0 State.init := by
      simp only [mainLoop, forEach]
      cases printpkg fl sys.imp t "" 0 State.init <;> rfl
    rw [hml, hnew]
    exact List.mem_append_right _ hmem

/-- Sorting a sorted slice changes nothing. -/
theorem sortStrings_idem (l : List String) : sortStrings (sortStrings l) = sortStrings l :=
  List.Sorted.insertionSort_eq (sortStrings_sorted l)

/-- A package is a rearrangement of itself. -/
theorem rearranged_refl (p : Package) : rearranged p p :=
  ⟨rfl, rfl, rfl, rfl, Or.inl rfl, Or.inl rfl, Or.inl rfl⟩

/-- Sorting a slice of a rearranged package in place leaves a rearranged package. -/
theorem rearranged_sortdeps (fl : Flags) (d : Int) (p q : Package) (h : rearranged p q) :
    rearranged p (sortdeps fl d q).2 := by
  obtain ⟨h1, h2, h3, h4, h5, h6, h7⟩ := h
  have hs : ∀ a b : List String, (a = b ∨ a = sortStrings b) →
      (sortStrings a = b ∨ sortStrings a = sortStrings b) := by
    rintro a b (h | h)
    · right; rw [h]
    · right; rw [h, sortStrings_idem]
  unfold sortdeps
  split
  · exact ⟨h1, h2, h3, h4, h5, hs _ _ h6, h7⟩
  · split
    · exact ⟨h1, h2, h3, h4, h5, h6, hs _ _ h7⟩
    · exact ⟨h1, h2, h3, h4, hs _ _ h5, h6, h7⟩

/-- Storing a rearranged resolver result under its `ImportPath` keeps `cacheFrom`. -/
theorem cacheFrom_update (imp : Importer) (s s' : State) (k : String) (q : Package)
    (hs : cacheFrom imp s) (hq : ∃ x p, imp x = .ok p ∧ p.ImportPath = k ∧ rearranged p q)
    (h : s'.pkgcache = Function.update s.pkgcache k (some q)) : cacheFrom imp s' := by
  intro k' q' hk'
  rw [h] at hk'
  by_cases hkk : k' = k
  · subst hkk
    rw [Function.update_same] at hk'
    cases hk'
    exact hq
  · rw [Function.update_noteq hkk] at hk'
    exact hs k' q' hk'

/-- Proof rule for `printpkg` in terms of the run of a node alone. -/
theorem printpkg_node_rule (fl : Flags) (imp : Importer) (t : Template)
    (R : Int → State → Outcome Unit → Prop)
    (hret : ∀ d s, R d s (.ok () s))
    (hseq : ∀ d a b o, R d a (.ok () b) → R d b o → R d a o)
    (hlift : ∀ d a o, d + 1 ≤ fl.maxdepth → R (d + 1) a o → R d a o)
    (hnode : ∀ x d s, R d s (printpkg (fl.upTo d) imp t x d s)) :
    ∀ x d s, R d s (printpkg fl imp t x d s) := by
  have key : ∀ (n : Nat) x d s, (fl.maxdepth - d).toNat = n →
      R d s (printpkg fl imp t x d s) := by
    intro n
    induction n using Nat.strong_induction_on with
    | _ n ih =>
      intro x d s hn
      rcases printpkg_split fl imp t x d s with h | ⟨pkg, s3, -, -, -, hd, hnd, hrec⟩
      · rw [h]; exact hnode x d s
      · have h1 := hnode x d s
        rw [hnd] at h1
        rw [hrec]
        refine hseq _ _ _ _ h1 (hlift _ _ _ hd ?_)
        apply forEach_rule (R (d + 1)) _ (hret _) (hseq _)
        intro y st
        exact ih ((fl.maxdepth - (d + 1)).toNat) (by omega) y (d + 1) st rfl
  intro x d s
  exact key _ x d s rfl

/-- The resolver cache after the run of a node alone. -/
theorem node_cacheFrom (fl : Flags) (imp : Importer) (t : Template) (x : String) (d : Int)
    (s : State) (hs : cacheFrom imp s) :
    cacheFrom imp (printpkg (fl.upTo d) imp t x d s).final := by
  have hsd : ∀ pkg, sortdeps (fl.upTo d) d pkg = sortdeps fl d pkg := by
    intro pkg; simp [sortdeps, Flags.upTo]
  have hrender : ∀ (pkg : Package) (s1 : State),
      (render t x pkg d s1).final.pkgcache = s1.pkgcache := by
    intro pkg s1
    unfold render
    cases s1.printcache (d, pkg.ImportPath) with
    | some out => rfl
    | none => cases spaces d <;> rfl
  have hrest : ∀ (slot : String) (pkg : Package) (s1 : State), cacheFrom imp s1 →
      (∃ y p, imp y = .ok p ∧ p.ImportPath = slot ∧ rearranged p pkg) →
      cacheFrom imp
        (if (pkg.Goroot && !(fl.upTo d).stdlib) = true then (Outcome.ok () s1 : Outcome Unit)
          else
            match render t x pkg d s1 with
            | .fatal p e s2 => .fatal p e s2
            | .panic s2 => .panic s2
            | .ok _ s2 =>
              if d + 1 > (fl.upTo d).maxdepth then
                .ok () { s2 with
                  pkgcache := Function.update s2.pkgcache slot
                    (some (sortdeps (fl.upTo d) d pkg).2) }
              else
                forEach (fun dep st => printpkg (fl.upTo d) imp t dep (d + 1) st)
                  (sortdeps (fl.upTo d) d pkg).1
                  { s2 with
                    pkgcache := Function.update s2.pkgcache slot
                      (some (sortdeps (fl.upTo d) d pkg).2) }).final := by
    intro slot pkg s1 h1 hq
    split
    · exact h1
    · have hr := hrender pkg s1
      have hcf : ∀ s2 : State, s2.pkgcache = s1.pkgcache → cacheFrom imp s2 := by
        intro s2 h2 k q hk
        rw [h2] at hk
        exact h1 k q hk
      cases hro : render t x pkg d s1 with
      | fatal p e s2 => rw [hro] at hr; exact hcf s2 hr
      | panic s2 => rw [hro] at hr; exact hcf s2 hr
      | ok u s2 =>
        rw [hro] at hr
        simp only [Outcome.final] at hr
        simp only
        rw [if_pos (by simp [Flags.upTo])]
        obtain ⟨y, p, hy, hp, hre⟩ := hq
        exact cacheFrom_update imp s2 _ slot _ (hcf s2 hr)
          ⟨y, p, hy, hp, by rw [hsd]; exact rearranged_sortdeps fl d p pkg hre⟩ rfl
  rw [printpkg_eq]
  split
  · exact hs
  · unfold loadpkg
    cases hc : s.pkgcache x with
    | some pkg =>
      simp only
      exact hrest x pkg _ (fun k q hk => hs k q hk) (hs x pkg hc)
    | none =>
      cases hi : imp x with
      | error err =>
        exact fun k q hk => hs k q hk
      | ok pkg =>
        simp only
        refine hrest pkg.ImportPath pkg _ ?_ ⟨x, pkg, hi, rfl, rearranged_refl pkg⟩
        exact cacheFrom_update imp s _ pkg.ImportPath pkg hs
          ⟨x, pkg, hi, rfl, rearranged_refl pkg⟩ rfl

/-- Every call keeps `cacheFrom`. -/
theorem printpkg_cacheFrom (fl : Flags) (imp : Importer) (t : Template) (x : String) (d : Int)
    (s : State) (hs : cacheFrom imp s) :
    cacheFrom imp (printpkg fl imp t x d s).final := by
  have := printpkg_node_rule fl imp t (fun _ s o => cacheFrom imp s → cacheFrom imp o.final)
    (fun _ _ h => h) (fun _ _ _ _ h1 h2 h => h2 (h1 h)) (fun _ _ _ _ h => h)
    (fun x d s h => node_cacheFrom fl imp t x d s h) x d s
  exact this hs

/-- The loop over a body that never runs out of fuel. -/
theorem forEachFuel_some (f : String → State → Outcome Unit) :
    ∀ (xs : List String) (s : State),
      forEachFuel (fun x st => some (f x st)) xs s = some (forEach f xs s) := by
  intro xs
  induction xs with
  | nil => intro s; rfl
  | cons x xs ih =>
    intro s
    simp only [forEachFuel, forEach]
    cases f x s with
    | ok u s1 => exact ih s1
    | fatal p e s1 => rfl
    | panic s1 => rfl

/-- Fuel for one more level than `maxdepth - depth` is enough at every depth. -/
theorem printpkgFuel_enough (fl : Flags) (imp : Importer) (t : Template) :
    ∀ (n : Nat) (x : String) (d : Int) (s : State) (k : Nat), (fl.maxdepth - d).toNat = n →
      printpkgFuel fl imp t (n + 1 + k) x d s = some (printpkg fl imp t x d s) := by
  intro n
  induction n using Nat.strong_induction_on with
  | _ n ih =>
    intro x d s k hn
    have hfuel : n + 1 + k = (n + k) + 1 := by omega
    rw [hfuel, printpkgFuel, printpkg_eq]
    by_cases hf : x = "C" ∨ x = "unsafe"
    · rw [if_pos hf, if_pos hf]
    · rw [if_neg hf, if_neg hf]
      cases loadpkg imp x { s with trace := s.trace ++ [Event.load x d] } with
      | fatal p e s1 => rfl
      | panic s1 => rfl
      | ok r s1 =>
        obtain ⟨slot, pkg⟩ := r
        simp only
        by_cases hg : (pkg.Goroot && !fl.stdlib) = true
        · rw [if_pos hg, if_pos hg]
        · rw [if_neg hg, if_neg hg]
          cases render t x pkg d s1 with
          | fatal p e s2 => rfl
          | panic s2 => rfl
          | ok u s2 =>
            simp only
            by_cases hd : d + 1 > fl.maxdepth
            · rw [if_pos hd, if_pos hd]
            · rw [if_neg hd, if_neg hd]
              have hfun : (fun dep st => printpkgFuel fl imp t (n + k) dep (d + 1) st) =
                  (fun dep st => some (printpkg fl imp t dep (d + 1) st)) := by
                funext dep st
                have hlt : (fl.maxdepth - (d + 1)).toNat < n := by omega
                have := ih _ hlt dep (d + 1) st (n + k - ((fl.maxdepth - (d + 1)).toNat + 1)) rfl
                rw [← this]
                congr 1
                omega
              rw [hfun, forEachFuel_some]

/-- An import cycle is followed down to the depth bound and no further. -/
theorem cycle_is_cut_by_depth :
    (printpkg { c1Flags with maxdepth := 3 } c19Importer defaultTemplate "A" 0
      State.init).final.stdout = "A:\n  B:\n    A:\n      B:\n" := by
  simp [printpkg_eq, loadpkg, render, sortdeps, forEach, State.init, c1Flags, spaces,
    defaultTemplate, sortStrings, Function.update, c19Importer, mkpkg, Outcome.final]

/-- Two rearrangements of one slice are sorted to the same slice. -/
theorem sortStrings_perm_eq (l1 l2 : List String) (h : l1.Perm l2) :
    sortStrings l1 = sortStrings l2 := by
  haveI : IsAntisymm String strLe :=
    ⟨fun a b h1 h2 => String.ext (@le_antisymm (List Char) _ _ _ h1 h2)⟩
  exact List.eq_of_perm_of_sorted
    (((sortStrings_perm l1).trans h).trans (sortStrings_perm l2).symm)
    (sortStrings_sorted l1) (sortStrings_sorted l2)

/-- The sorted slices of two packages that differ in order are equal, and the packages after the
in-place sort still differ at most in order. -/
theorem permPkg_sortdeps (fl : Flags) (d : Int) (p q : Package) (h : permPkg p q) :
    (sortdeps fl d p).1 = (sortdeps fl d q).1 ∧ permPkg (sortdeps fl d p).2 (sortdeps fl d q).2 := by
  obtain ⟨h1, h2, h3, h4, h5, h6, h7⟩ := h
  unfold sortdeps
  split
  · exact ⟨sortStrings_perm_eq _ _ h6,
      h1, h2, h3, h4, h5, by simp only [sortStrings_perm_eq _ _ h6]; exact List.Perm.refl _, h7⟩
  · split
    · exact ⟨sortStrings_perm_eq _ _ h7,
        h1, h2, h3, h4, h5, h6, by simp only [sortStrings_perm_eq _ _ h7]; exact List.Perm.refl _⟩
    · exact ⟨sortStrings_perm_eq _ _ h5,
        h1, h2, h3, h4, by simp only [sortStrings_perm_eq _ _ h5]; exact List.Perm.refl _, h6, h7⟩

/-- Storing packages that differ at most in order under one key keeps `simState`. -/
theorem simState_update (a b : State) (k : String) (p q : Package) (h : simState a b)
    (hpq : permPkg p q) :
    simState { a with pkgcache := Function.update a.pkgcache k (some p) }
      { b with pkgcache := Function.update b.pkgcache k (some q) } := by
  obtain ⟨h1, h2, h3, h4⟩ := h
  refine ⟨h1, h2, h3, ?_⟩
  intro k'
  by_cases hk : k' = k
  · subst hk
    right
    exact ⟨p, q, by simp, by simp, hpq⟩
  · simp only [Function.update_noteq hk]
    exact h4 k'

/-- Logging the same events keeps `simState`. -/
theorem simState_log (a b : State) (es : List Event) (h : simState a b) :
    simState { a with trace := a.trace ++ es } { b with trace := b.trace ++ es } := by
  obtain ⟨h1, h2, h3, h4⟩ := h
  exact ⟨h1, h2, by simp only [h3], h4⟩

/-- The lookups of two resolvers that agree up to order end the same way. -/
theorem sim_loadpkg (imp1 imp2 : Importer) (himp : sameUpToOrder imp1 imp2) (x : String)
    (a b : State) (h : simState a b) :
    (∃ slot p q a1 b1, loadpkg imp1 x a = .ok (slot, p) a1 ∧ loadpkg imp2 x b = .ok (slot, q) b1 ∧
      permPkg p q ∧ simState a1 b1) ∨
    (∃ e a1 b1, loadpkg imp1 x a = .fatal x e a1 ∧ loadpkg imp2 x b = .fatal x e b1 ∧
      simState a1 b1) := by
  unfold loadpkg
  rcases h.2.2.2 x with ⟨ha, hb⟩ | ⟨p, q, ha, hb, hpq⟩
  · rw [ha, hb]
    rcases himp x with ⟨p, q, h1, h2, hpq⟩ | ⟨e, h1, h2⟩
    · left
      rw [h1, h2]
      refine ⟨p.ImportPath, p, q,
        { a with
          trace := a.trace ++ [Event.resolve x]
          pkgcache := Function.update a.pkgcache p.ImportPath (some p) },
        { b with
          trace := b.trace ++ [Event.resolve x]
          pkgcache := Function.update b.pkgcache p.ImportPath (some q) },
        rfl, ?_, hpq, ?_⟩
      · rw [hpq.1]
      · exact simState_update _ _ p.ImportPath p q (simState_log a b [Event.resolve x] h) hpq
    · right
      rw [h1, h2]
      exact ⟨e, _, _, rfl, rfl, simState_log a b [Event.resolve x] h⟩
  · left
    rw [ha, hb]
    exact ⟨x, p, q, a, b, rfl, rfl, hpq, h⟩

/-- With the default template, rendering two packages with the same `ImportPath` ends the same
way. -/
theorem sim_render (x : String) (p q : Package) (d : Int) (a b : State) (h : simState a b)
    (hpq : p.ImportPath = q.ImportPath) :
    simOutcome (render defaultTemplate x p d a) (render defaultTemplate x q d b) := by
  obtain ⟨h1, h2, h3, h4⟩ := h
  unfold render
  rw [← hpq, ← h2]
  cases a.printcache (d, p.ImportPath) with
  | some out =>
    left
    exact ⟨_, _, rfl, rfl, by simp only [h1], rfl, by simp only [h3], h4⟩
  | none =>
    cases spaces d with
    | none => right; right; exact ⟨a, b, rfl, rfl, h1, h2, h3, h4⟩
    | some indent =>
      left
      refine ⟨_, _, rfl, rfl, ?_, ?_, ?_, h4⟩
      · simp only [h1, defaultTemplate, hpq]
      · simp only [h2, defaultTemplate, hpq]
      · simp only [h3, defaultTemplate, hpq]

/-- Loops over bodies that preserve `simState` end the same way. -/
theorem sim_forEach (f g : String → State → Outcome Unit)
    (hfg : ∀ x a b, simState a b → simOutcome (f x a) (g x b)) :
    ∀ (xs : List String) (a b : State), simState a b →
      simOutcome (forEach f xs a) (forEach g xs b) := by
  intro xs
  induction xs with
  | nil => intro a b h; left; exact ⟨a, b, rfl, rfl, h⟩
  | cons x xs ih =>
    intro a b h
    simp only [forEach]
    rcases hfg x a b h with ⟨a1, b1, e1, e2, hs⟩ | ⟨p, e, a1, b1, e1, e2, hs⟩ | ⟨a1, b1, e1, e2, hs⟩
    · rw [e1, e2]; exact ih a1 b1 hs
    · rw [e1, e2]; right; left; exact ⟨p, e, a1, b1, rfl, rfl, hs⟩
    · rw [e1, e2]; right; right; exact ⟨a1, b1, rfl, rfl, hs⟩

/-- Calls of `printpkg` under two resolvers that agree up to order end the same way. -/
theorem sim_printpkg (fl : Flags) (imp1 imp2 : Importer) (himp : sameUpToOrder imp1 imp2) :
    ∀ (n : Nat) (x : String) (d : Int) (a b : State), (fl.maxdepth - d).toNat = n →
      simState a b →
      simOutcome (printpkg fl imp1 defaultTemplate x d a)
        (printpkg fl imp2 defaultTemplate x d b) := by
  intro n
  induction n using Nat.strong_induction_on with
  | _ n ih =>
    intro x d a b hn h
    rw [printpkg_eq fl imp1, printpkg_eq fl imp2]
    by_cases hf : x = "C" ∨ x = "unsafe"
    · rw [if_pos hf, if_pos hf]; left; exact ⟨a, b, rfl, rfl, h⟩
    · rw [if_neg hf, if_neg hf]
      rcases sim_loadpkg imp1 imp2 himp x _ _ (simState_log a b [Event.load x d] h) with
        ⟨slot, p, q, a1, b1, e1, e2, hpq, hs⟩ | ⟨e, a1, b1, e1, e2, hs⟩
      · rw [e1, e2]
        simp only [← hpq.2.1]
        by_cases hg : (p.Goroot && !fl.stdlib) = true
        · rw [if_pos hg, if_pos hg]; left; exact ⟨a1, b1, rfl, rfl, hs⟩
        · rw [if_neg hg, if_neg hg]
          rcases sim_render x p q d a1 b1 hs hpq.1 with
            ⟨a2, b2, r1, r2, hs2⟩ | ⟨p', e', a2, b2, r1, r2, hs2⟩ | ⟨a2, b2, r1, r2, hs2⟩
          · rw [r1, r2]
            simp only
            obtain ⟨hd1, hd2⟩ := permPkg_sortdeps fl d p q hpq
            have hs3 := simState_update a2 b2 slot _ _ hs2 hd2
            by_cases hdep : d + 1 > fl.maxdepth
            · rw [if_pos hdep, if_pos hdep]; left; exact ⟨_, _, rfl, rfl, hs3⟩
            · rw [if_neg hdep, if_neg hdep, ← hd1]
              apply sim_forEach _ _ _ _ _ _ hs3
              intro y a' b' hab
              exact ih ((fl.maxdepth - (d + 1)).toNat) (by omega) y (d + 1) a' b' rfl hab
          · rw [r1, r2]; right; left; exact ⟨p', e', a2, b2, rfl, rfl, hs2⟩
          · rw [r1, r2]; right; right; exact ⟨a2, b2, rfl, rfl, hs2⟩
      · rw [e1, e2]; right; left; exact ⟨x, e, a1, b1, rfl, rfl, hs⟩

/-- Calls that end the same way end in related states. -/
theorem simOutcome_final (o1 o2 : Outcome Unit) (h : simOutcome o1 o2) :
    simState o1.final o2.final := by
  rcases h with ⟨a, b, e1, e2, hs⟩ | ⟨p, e, a, b, e1, e2, hs⟩ | ⟨a, b, e1, e2, hs⟩ <;>
    (subst e1; subst e2; exact hs)

/-- A state is related to itself. -/
theorem simState_refl (s : State) : simState s s := by
  refine ⟨rfl, rfl, rfl, ?_⟩
  intro k
  cases h : s.pkgcache k with
  | none => left; exact ⟨rfl, rfl⟩
  | some p =>
    right
    exact ⟨p, p, rfl, rfl, rfl, rfl, rfl, rfl, List.Perm.refl _, List.Perm.refl _,
      List.Perm.refl _⟩

/-- The defining equation of `printpkgNoCache`. -/
theorem printpkgNoCache_eq (fl : Flags) (imp : Importer) (t : Template) (importpath : String)
    (depth : Int) (s : State) : printpkgNoCache fl imp t importpath depth s =
  if importpath = "C" ∨ importpath = "unsafe" then .ok () s
  else
    match imp importpath with
    | .error err => .fatal importpath err s
    | .ok pkg =>
      if pkg.Goroot && !fl.stdlib then .ok () s
      else
        match spaces depth with
        | none => .panic s
        | some indent =>
          if depth + 1 > fl.maxdepth then .ok () { s with stdout := s.stdout ++ t pkg indent }
          else
            forEach (fun dep st => printpkgNoCache fl imp t dep (depth + 1) st)
              (sortdeps fl depth pkg).1 { s with stdout := s.stdout ++ t pkg indent } := by
  rw [printpkgNoCache]

/-- A rearranged package has the same sorted slices. -/
theorem rearranged_sortdeps_fst (fl : Flags) (d : Int) (p q : Package) (h : rearranged p q) :
    (sortdeps fl d q).1 = (sortdeps fl d p).1 := by
  obtain ⟨-, -, -, -, h5, h6, h7⟩ := h
  have hs : ∀ a b : List String, (a = b ∨ a = sortStrings b) →
      sortStrings a = sortStrings b := by
    rintro a b (h | h)
    · rw [h]
    · rw [h, sortStrings_idem]
  unfold sortdeps
  split
  · exact hs _ _ h6
  · split
    · exact hs _ _ h7
    · exact hs _ _ h5

/-- Loops over bodies that preserve `sameOutput` end the same way. -/
theorem sameRun_forEach (imp : Importer) (f g : String → State → Outcome Unit)
    (hfg : ∀ x a b, sameOutput imp a b → sameRun imp (f x a) (g x b)) :
    ∀ (xs : List String) (a b : State), sameOutput imp a b →
      sameRun imp (forEach f xs a) (forEach g xs b) := by
  intro xs
  induction xs with
  | nil => intro a b h; left; exact ⟨a, b, rfl, rfl, h⟩
  | cons x xs ih =>
    intro a b h
    simp only [forEach]
    rcases hfg x a b h with ⟨a1, b1, e1, e2, hs⟩ | ⟨p, e, a1, b1, e1, e2, hs⟩
    · rw [e1, e2]; exact ih a1 b1 hs
    · rw [e1, e2]; right; exact ⟨p, e, a1, b1, rfl, rfl, hs⟩

/-- The lookup of the cached traversal gives the package the external resolver gives, up to
sorted slices. -/
theorem loadpkg_sameOutput (imp : Importer)
    (hidem : ∀ x p, imp x = .ok p → imp p.ImportPath = .ok p) (x : String) (a : State)
    (hc : cacheFrom imp a) :
    (∃ e a1, loadpkg imp x a = .fatal x e a1 ∧ imp x = .error e ∧ a1.stdout = a.stdout) ∨
    (∃ slot q p a1, loadpkg imp x a = .ok (slot, q) a1 ∧ imp x = .ok p ∧ rearranged p q ∧
      a1.stdout = a.stdout ∧ a1.printcache = a.printcache ∧ cacheFrom imp a1 ∧
      ∃ y p', imp y = .ok p' ∧ p'.ImportPath = slot ∧ rearranged p' q) := by
  unfold loadpkg
  cases hx : a.pkgcache x with
  | some q =>
    right
    obtain ⟨y, p, hy, hp, hr⟩ := hc x q hx
    have hix : imp x = .ok p := by rw [← hp]; exact hidem y p hy
    exact ⟨x, q, p, a, rfl, hix, hr, rfl, rfl, hc, y, p, hy, hp, hr⟩
  | none =>
    cases hi : imp x with
    | error e => left; exact ⟨e, _, rfl, rfl, rfl⟩
    | ok p =>
      right
      refine ⟨p.ImportPath, p, p, _, rfl, rfl, rearranged_refl p, rfl, rfl, ?_,
        x, p, hi, rfl, rearranged_refl p⟩
      exact cacheFrom_update imp { a with trace := a.trace ++ [Event.resolve x] } _
        p.ImportPath p (fun k q hk => hc k q hk) ⟨x, p, hi, rfl, rearranged_refl p⟩ rfl

/-- With the default template a node at a depth that is not negative is rendered to the same
block from the render cache as afresh. -/
theorem render_sameOutput (x : String) (q : Package) (d : Int) (a : State) (hp : printOK a)
    (hd : 0 ≤ d) :
    ∃ indent a2, spaces d = some indent ∧ render defaultTemplate x q d a = .ok () a2 ∧
      a2.stdout = a.stdout ++ (indent ++ q.ImportPath ++ ":\n") ∧ a2.pkgcache = a.pkgcache ∧
      printOK a2 := by
  have hs : spaces d = some (String.mk (List.replicate (d * 2).toNat ' ')) := by
    unfold spaces
    rw [if_neg (by omega)]
  unfold render
  cases hpc : a.printcache (d, q.ImportPath) with
  | some out =>
    obtain ⟨indent, hi, ho⟩ := hp d q.ImportPath out hpc
    exact ⟨indent, _, hi, rfl, by simp only [ho], rfl, hp⟩
  | none =>
    simp only [hs]
    refine ⟨_, _, rfl, rfl, rfl, rfl, ?_⟩
    intro d' path out hout
    by_cases hk : (d', path) = (d, q.ImportPath)
    · obtain ⟨rfl, rfl⟩ := Prod.mk.inj hk
      have hout' : some (defaultTemplate q (String.mk (List.replicate (d' * 2).toNat ' ')))
          = some out := by
        rw [← hout]
        exact (Function.update_same (d', q.ImportPath) _ a.printcache).symm
      exact ⟨_, hs, (Option.some.inj hout').symm⟩
    · have hout' : a.printcache (d', path) = some out := by
        rw [← hout]
        exact (Function.update_noteq hk _ a.printcache).symm
      exact hp d' path out hout'

/-- From depth `0` on, a cached call and a call without caches end the same way with the same
output, when resolving a canonical identifier returns the package itself. -/
theorem printpkg_sameRun (fl : Flags) (imp : Importer)
    (hidem : ∀ x p, imp x = .ok p → imp p.ImportPath = .ok p) :
    ∀ (n : Nat) (x : String) (d : Int) (a b : State), (fl.maxdepth - d).toNat = n → 0 ≤ d →
      sameOutput imp a b →
      sameRun imp (printpkg fl imp defaultTemplate x d a)
        (printpkgNoCache fl imp defaultTemplate x d b) := by
  intro n
  induction n using Nat.strong_induction_on with
  | _ n ih =>
    intro x d a b hn hd0 h
    obtain ⟨hout, hc, hp⟩ := h
    rw [printpkg_eq, printpkgNoCache_eq]
    by_cases hf : x = "C" ∨ x = "unsafe"
    · rw [if_pos hf, if_pos hf]; left; exact ⟨a, b, rfl, rfl, hout, hc, hp⟩
    · rw [if_neg hf, if_neg hf]
      rcases loadpkg_sameOutput imp hidem x { a with trace := a.trace ++ [Event.load x d] }
          (fun k q hk => hc k q hk) with
        ⟨e, a1, e1, e2, hs1⟩ | ⟨slot, q, p, a1, e1, e2, hr, hs1, hp1, hc1, hprov⟩
      · rw [e1, e2]; right; exact ⟨x, e, a1, b, rfl, rfl, by rw [hs1]; exact hout⟩
      · rw [e1, e2]
        simp only [hr.2.1]
        by_cases hg : (p.Goroot && !fl.stdlib) = true
        · rw [if_pos hg, if_pos hg]
          left
          exact ⟨a1, b, rfl, rfl, by rw [hs1]; exact hout, hc1,
            fun d' path out ho => hp d' path out (by rw [← hp1]; exact ho)⟩
        · rw [if_neg hg, if_neg hg]
          have hp1' : printOK a1 := fun d' path out ho => hp d' path out (by rw [← hp1]; exact ho)
          obtain ⟨indent, a2, hsp, hren, hs2, hpk2, hp2⟩ := render_sameOutput x q d a1 hp1' hd0
          rw [hren, hsp]
          simp only
          have hsame : sameOutput imp
              { a2 with pkgcache := Function.update a2.pkgcache slot (some (sortdeps fl d q).2) }
              { b with stdout := b.stdout ++ defaultTemplate p indent } := by
            refine ⟨?_, ?_, hp2⟩
            · show a2.stdout = b.stdout ++ defaultTemplate p indent
              rw [hs2, hs1, defaultTemplate, hr.1]
              exact congrArg (· ++ (indent ++ p.ImportPath ++ ":\n")) hout
            · obtain ⟨y, p', hy, hpy, hry⟩ := hprov
              exact cacheFrom_update imp a2 _ slot _
                (fun k q' hk => hc1 k q' (by rw [← hpk2]; exact hk))
                ⟨y, p', hy, hpy, rearranged_sortdeps fl d p' q hry⟩ rfl
          by_cases hdep : d + 1 > fl.maxdepth
          · rw [if_pos hdep, if_pos hdep]; left; exact ⟨_, _, rfl, rfl, hsame⟩
          · rw [if_neg hdep, if_neg hdep, rearranged_sortdeps_fst fl d p q hr]
            apply sameRun_forEach imp _ _ _ _ _ _ hsame
            intro y a' b' hab
            exact ih ((fl.maxdepth - (d + 1)).toNat) (by omega) y (d + 1) a' b' rfl (by omega) hab

/-- C11.  On a cache miss where the external resolver returns `p`, `loadpkg` returns `p`; the
resolver cache afterwards is the cache before with the one binding `p` under `p.ImportPath`
(every other key, the requested identifier included when it differs, is as before); nothing is
written and `printcache` is unchanged. -/
theorem loadpkg_miss_stores (imp : Importer) (importpath : String) (s : State) (p : Package)
    (hmiss : s.pkgcache importpath = none) (hok : imp importpath = .ok p) :
    ∃ s', loadpkg imp importpath s = .ok (p.ImportPath, p) s' ∧
      s'.pkgcache = Function.update s.pkgcache p.ImportPath (some p) ∧
      s'.pkgcache p.ImportPath = some p ∧
      (∀ k, k ≠ p.ImportPath → s'.pkgcache k = s.pkgcache k) ∧
      s'.stdout = s.stdout ∧ s'.printcache = s.printcache := by
  refine ⟨{ s with
      trace := s.trace ++ [Event.resolve importpath]
      pkgcache := Function.update s.pkgcache p.ImportPath (some p) },
    by simp [loadpkg, hmiss, hok], rfl, ?_, ?_, rfl, rfl⟩
  · simp
  · intro k hk; simp [Function.update_noteq hk]

theorem loadpkg_miss_stores_witness :
    ∃ s', loadpkg c11Importer "alias" State.init
        = .ok ((mkpkg "canonical" []).ImportPath, mkpkg "canonical" []) s' ∧
      s'.pkgcache = Function.update State.init.pkgcache (mkpkg "canonical" []).ImportPath
        (some (mkpkg "canonical" [])) ∧
      s'.pkgcache (mkpkg "canonical" []).ImportPath = some (mkpkg "canonical" []) ∧
      (∀ k, k ≠ (mkpkg "canonical" []).ImportPath → s'.pkgcache k = State.init.pkgcache k) ∧
      s'.stdout = State.init.stdout ∧ s'.printcache = State.init.printcache :=
  loadpkg_miss_stores c11Importer "alias" State.init (mkpkg "canonical" []) rfl rfl

/-- C12.  For two resolvers that return the same packages up to the order of each dependency list
(and fail alike), the same flags and roots, the default template and empty caches, the two
traversals write the same output, and log the same events. -/
theorem output_independent_of_order (fl : Flags) (imp1 imp2 : Importer) (roots : List String)
    (himp : sameUpToOrder imp1 imp2) :
    (mainLoop fl imp1 defaultTemplate roots State.init).final.stdout =
        (mainLoop fl imp2 defaultTemplate roots State.init).final.stdout ∧
      (mainLoop fl imp1 defaultTemplate roots State.init).final.trace =
        (mainLoop fl imp2 defaultTemplate roots State.init).final.trace := by
  have h := sim_forEach (fun pkg st => printpkg fl imp1 defaultTemplate pkg 0 st)
    (fun pkg st => printpkg fl imp2 defaultTemplate pkg 0 st)
    (fun x a b hab => sim_printpkg fl imp1 imp2 himp _ x 0 a b rfl hab)
    roots State.init State.init (simState_refl _)
  have hs := simOutcome_final _ _ h
  exact ⟨hs.1, hs.2.2.1⟩

theorem output_independent_of_order_witness :
    (mainLoop c1Flags c1Importer defaultTemplate ["A"] State.init).final.stdout =
        (mainLoop c1Flags c12Importer defaultTemplate ["A"] State.init).final.stdout ∧
      (mainLoop c1Flags c1Importer defaultTemplate ["A"] State.init).final.trace =
        (mainLoop c1Flags c12Importer defaultTemplate ["A"] State.init).final.trace :=
  output_independent_of_order c1Flags c1Importer c12Importer ["A"] (by
    intro x
    unfold c1Importer c12Importer
    by_cases hA : x = "A"
    · left
      refine ⟨mkpkg "A" ["C", "B"], mkpkg "A" ["B", "C"], by simp [hA], by simp [hA], ?_⟩
      exact ⟨rfl, rfl, rfl, rfl, List.Perm.swap _ _ _, List.Perm.refl _, List.Perm.refl _⟩
    · by_cases hB : x = "B"
      · left
        refine ⟨mkpkg "B" [], mkpkg "B" [], by simp [hB], by simp [hB], ?_⟩
        exact ⟨rfl, rfl, rfl, rfl, List.Perm.refl _, List.Perm.refl _, List.Perm.refl _⟩
      · by_cases hC : x = "C"
        · left
          refine ⟨mkpkg "C" [], mkpkg "C" [], by simp [hC], by simp [hC], ?_⟩
          exact ⟨rfl, rfl, rfl, rfl, List.Perm.refl _, List.Perm.refl _, List.Perm.refl _⟩
        · right
          exact ⟨"cannot find package", by simp [hA, hB, hC], by simp [hA, hB, hC]⟩)

/-- C13.  For every `srcDir` and `wd`: if `wd` is empty, equals `srcDir`, or does not lie strictly
beneath `srcDir`, `getGoSubpath` returns the empty string and an error. -/
theorem getGoSubpath_only_beneath (srcDir wd : String)
    (h : wd = "" ∨ wd = srcDir ∨ ¬ beneath srcDir wd) :
    (getGoSubpath filepathRel srcDir wd).1 = "" ∧
      (getGoSubpath filepathRel srcDir wd).2 ≠ none := by
  have key : (getGoSubpath filepathRel srcDir wd).2 ≠ none := by
    intro hnone
    obtain ⟨hwd, hrel, hne, hdot⟩ := getGoSubpath_ok filepathRel srcDir wd hnone
    generalize (getGoSubpath filepathRel srcDir wd).1 = r at hrel hne hdot
    have hb : beneath srcDir wd := by
      unfold filepathRel at hrel
      by_cases he : elements srcDir = elements wd
      · rw [if_pos he] at hrel
        have : r = "." := (Prod.mk.inj hrel).1.symm
        subst this
        exact absurd rfl hdot
      · rw [if_neg he] at hrel
        by_cases hroot : (elements srcDir).1 ≠ (elements wd).1
        · rw [if_pos hroot] at hrel
          simp at hrel
        · rw [if_neg hroot] at hrel
          simp only at hrel
          by_cases hdd : (dropCommon (elements srcDir).2 (elements wd).2).1.head? = some ".."
          · rw [if_pos hdd] at hrel
            simp at hrel
          · rw [if_neg hdd] at hrel
            have hr : r = joinSlash (List.replicate
                (dropCommon (elements srcDir).2 (elements wd).2).1.length ".." ++
                (dropCommon (elements srcDir).2 (elements wd).2).2) := (Prod.mk.inj hrel).1.symm
            have hnil : (dropCommon (elements srcDir).2 (elements wd).2).1 = [] := by
              cases hl : (dropCommon (elements srcDir).2 (elements wd).2).1 with
              | nil => rfl
              | cons x xs =>
                exfalso
                rw [hl] at hr
                simp only [List.length_cons, List.replicate_succ, List.cons_append] at hr
                rw [hr] at hdot
                exact hdot (joinSlash_dotdot _)
            refine ⟨not_not.mp hroot, dropCommon_nil _ _ hnil, ?_⟩
            intro heq
            apply he
            exact Prod.ext (not_not.mp hroot) heq
    rcases h with h | h | h
    · exact hwd h
    · subst h
      exact hb.2.2 rfl
    · exact h hb
  refine ⟨?_, key⟩
  by_contra hne
  exact key ((getGoSubpath_result filepathRel srcDir wd).mpr hne)

theorem getGoSubpath_only_beneath_witness :
    ((getGoSubpath filepathRel "/Users/kevin/src" "/Users/kevin/src").1 = "" ∧
      (getGoSubpath filepathRel "/Users/kevin/src" "/Users/kevin/src").2 ≠ none) ∧
    ((getGoSubpath filepathRel "/Users/kevin/src" "/Users/kevin").1 = "" ∧
      (getGoSubpath filepathRel "/Users/kevin/src" "/Users/kevin").2 ≠ none) ∧
    ((getGoSubpath filepathRel "/Users/kevin/src" "/Users/kevin/var/tmp/foo").1 = "" ∧
      (getGoSubpath filepathRel "/Users/kevin/src" "/Users/kevin/var/tmp/foo").2 ≠ none) ∧
    ((getGoSubpath filepathRel "/Users/kevin/src"
        "/Users/blah/src/github.com/davecheney/prdeps").1 = "" ∧
      (getGoSubpath filepathRel "/Users/kevin/src"
        "/Users/blah/src/github.com/davecheney/prdeps").2 ≠ none) ∧
    ((getGoSubpath filepathRel "/Users/kevin/src" "/").1 = "" ∧
      (getGoSubpath filepathRel "/Users/kevin/src" "/").2 ≠ none) ∧
    ((getGoSubpath filepathRel "/Users/kevin/src" "").1 = "" ∧
      (getGoSubpath filepathRel "/Users/kevin/src" "").2 ≠ none) :=
  ⟨getGoSubpath_only_beneath _ _ (Or.inr (Or.inl rfl)),
    getGoSubpath_only_beneath _ _ (Or.inr (Or.inr (by decide))),
    getGoSubpath_only_beneath _ _ (Or.inr (Or.inr (by decide))),
    getGoSubpath_only_beneath _ _ (Or.inr (Or.inr (by decide))),
    getGoSubpath_only_beneath _ _ (Or.inr (Or.inr (by decide))),
    getGoSubpath_only_beneath _ _ (Or.inl rfl)⟩

/-- C14 (failing input).  The directory `/Users/kevin/src/.hidden` lies strictly beneath
`/Users/kevin/src` and `Rel` gives `.hidden`, yet `getGoSubpath` returns the empty string and the
error that the working directory is not in GOPATH, because the result begins with a dot. -/
theorem getGoSubpath_rejects_dot_directory :
    beneath "/Users/kevin/src" "/Users/kevin/src/.hidden" ∧
      filepathRel "/Users/kevin/src" "/Users/kevin/src/.hidden" = (".hidden", none) ∧
      getGoSubpath filepathRel "/Users/kevin/src" "/Users/kevin/src/.hidden" =
        ("", some "working directory /Users/kevin/src/.hidden is not in GOPATH") := by
  decide

/-- C15.  Whatever `filepath.Rel` returns, the error of `getGoSubpath` is `nil` exactly when the
string it returns is not empty. -/
theorem getGoSubpath_error_iff_empty (rel : String → String → String × Option String)
    (srcDir wd : String) :
    (getGoSubpath rel srcDir wd).2 = none ↔ (getGoSubpath rel srcDir wd).1 ≠ "" := by
  unfold getGoSubpath
  by_cases hwd : wd = ""
  · simp [hwd]
  · rw [if_neg hwd]
    rcases hr : rel srcDir wd with ⟨relpath, err⟩
    cases err with
    | some e => simp
    | none =>
      by_cases hc : relpath = "" ∨ relpath.data.head? = some '.'
      · simp [hc]
      · simp only [hc, if_false, true_iff]
        exact fun h => hc (Or.inl h)

/-- C16 (failing input).  Without arguments, in a working directory outside `$GOPATH/src`, `main`
logs the usage message and then goes on: it calls `printpkg("", t, 0)`, which asks the external
resolver for the identifier `""` and ends in `log.Fatalf`. -/
theorem main_traverses_after_usage :
    (main c1Flags c16Sys).usages =
        ["working directory /tmp/work is not in GOPATH\nUsage: prdeps <importpath>\n"] ∧
      ∃ s', (main c1Flags c16Sys).outcome = .ok (.fatal "" "cannot find package" s') ∧
        s'.trace = [Event.load "" 0, Event.resolve ""] := by
  have hg : getGoSubpath filepathRel (filepathClean "/home/gopher/go/src")
      "/tmp/work" = ("", some "working directory /tmp/work is not in GOPATH") := by decide
  refine ⟨?_, ?_⟩
  · simp [main, mainArgs, c16Sys, hg]
  · simp [main, mainArgs, c16Sys, hg, mainLoop, forEach, printpkg_eq, loadpkg, State.init,
      c1Importer]

/-- C17 (amended).  For every `-f` value the text handed to the template parser is the value
followed by one newline, whether or not the value already ends with a newline. -/
theorem main_template (fl : Flags) (sys : Sys) :
    (main fl sys).template = sys.format ++ "\n" ∧
      (main fl sys).outcome =
        (match sys.parse (sys.format ++ "\n") with
          | .error err => .error err
          | .ok t => .ok (mainLoop fl sys.imp t (mainArgs sys).1 State.init)) :=
  ⟨rfl, rfl⟩

/-- C17 (counterexample).  A `-f` value that ends with a newline is not passed on unchanged: a
second newline is appended. -/
theorem main_template_newline_doubled :
    ¬ ((main c1Flags c17Sys).template = c17Sys.format) ∧
      (main c1Flags c17Sys).template = "x\n\n" := by
  decide

/-- A rearrangement of a package whose slices are sorted is the package itself. -/
theorem rearranged_sorted_eq (p q : Package) (h : rearranged p q)
    (hs : List.Sorted strLe p.Imports ∧ List.Sorted strLe p.TestImports ∧
      List.Sorted strLe p.XTestImports) : q = p := by
  obtain ⟨h1, h2, h3, h4, h5, h6, h7⟩ := h
  have hid : ∀ l : List String, List.Sorted strLe l → sortStrings l = l :=
    fun l hl => List.Sorted.insertionSort_eq hl
  have e5 : q.Imports = p.Imports := by
    rcases h5 with h | h
    · exact h
    · rw [h, hid _ hs.1]
  have e6 : q.TestImports = p.TestImports := by
    rcases h6 with h | h
    · exact h
    · rw [h, hid _ hs.2.1]
  have e7 : q.XTestImports = p.XTestImports := by
    rcases h7 with h | h
    · exact h
    · rw [h, hid _ hs.2.2]
  cases p
  cases q
  simp only [Package.mk.injEq]
  exact ⟨h1, h2, e5, e6, e7, h3, h4⟩

/-- C18.  When the external resolver returns its dependency lists sorted (as `build.Import` does)
and every package in the resolver cache is, field by field, a package the resolver returned, the
same holds after any call of `printpkg`: `ImportPath` (the key), `Goroot` flag, the other fields
and the three dependency lists, element by element and in order, are as the resolver returned
them. -/
theorem metadata_never_mutated (fl : Flags) (imp : Importer) (t : Template)
    (importpath : String) (depth : Int) (s : State)
    (hsorted : ∀ x p, imp x = .ok p →
      List.Sorted strLe p.Imports ∧ List.Sorted strLe p.TestImports ∧
        List.Sorted strLe p.XTestImports)
    (hs : cacheExact imp s) :
    cacheExact imp (printpkg fl imp t importpath depth s).final := by
  have hfrom : cacheFrom imp s := by
    intro k q hk
    obtain ⟨x, hx, hq⟩ := hs k q hk
    exact ⟨x, q, hx, hq, rearranged_refl q⟩
  intro k q hk
  obtain ⟨x, p, hx, hp, hr⟩ := printpkg_cacheFrom fl imp t importpath depth s hfrom k q hk
  have hqp : q = p := rearranged_sorted_eq p q hr (hsorted x p hx)
  subst hqp
  exact ⟨x, hx, hp⟩

theorem metadata_never_mutated_witness :
    cacheExact c12Importer
      (printpkg c1Flags c12Importer defaultTemplate "A" 0 State.init).final :=
  metadata_never_mutated c1Flags c12Importer defaultTemplate "A" 0 State.init
    (by
      intro x p h
      unfold c12Importer at h
      split at h
      · cases h; decide
      · split at h
        · cases h; decide
        · split at h
          · cases h; decide
          · cases h)
    (fun k q hk => by simp [State.init] at hk)

/-- After `printpkg("A", t, 0)` the cache holds for `A` the package the resolver returned. -/
theorem metadata_example :
    (printpkg c1Flags c12Importer defaultTemplate "A" 0 State.init).final.pkgcache "A"
      = some (mkpkg "A" ["B", "C"]) ∧ c12Importer "A" = .ok (mkpkg "A" ["B", "C"]) := by
  refine ⟨?_, rfl⟩
  simp [printpkg_eq, loadpkg, render, sortdeps, forEach, State.init, c1Flags, spaces,
    defaultTemplate, sortStrings, Function.update, c12Importer, mkpkg, Outcome.final]
  decide

/-- C19.  For every resolver, max depth and starting depth `printpkg` returns: run with a bound on
the nesting of calls, it never exhausts a bound of more than `maxdepth - depth` nested levels
(none when that difference is negative), and it logs no call at a depth below `depth` or above
`max maxdepth depth`. -/
theorem printpkg_terminates (fl : Flags) (imp : Importer) (t : Template) (importpath : String)
    (depth : Int) (s : State) (k : Nat) :
    printpkgFuel fl imp t ((fl.maxdepth - depth).toNat + 1 + k) importpath depth s
        = some (printpkg fl imp t importpath depth s) ∧
      ∀ e ∈ newEvents s (printpkg fl imp t importpath depth s), ∀ j, e.depth? = some j →
        depth ≤ j ∧ j ≤ max fl.maxdepth depth := by
  refine ⟨printpkgFuel_enough fl imp t _ importpath depth s k rfl, ?_⟩
  obtain ⟨new, h, hp, -⟩ := printpkg_depths fl imp t importpath depth s
  rw [newEvents_eq s _ new h]
  exact hp

/-- C20.  From empty caches, with the default template and a resolver for which resolving a
package's `ImportPath` returns that package, the traversal of any roots writes the same output
as the traversal with both caches disabled. -/
theorem caches_do_not_change_output (fl : Flags) (imp : Importer) (roots : List String)
    (hidem : ∀ x p, imp x = .ok p → imp p.ImportPath = .ok p) :
    (mainLoop fl imp defaultTemplate roots State.init).final.stdout =
      (mainLoopNoCache fl imp defaultTemplate roots State.init).final.stdout := by
  have hinit : sameOutput imp State.init State.init :=
    ⟨rfl, fun k q hk => by simp [State.init] at hk, fun d path out ho => by simp [State.init] at ho⟩
  have h := sameRun_forEach imp (fun pkg st => printpkg fl imp defaultTemplate pkg 0 st)
    (fun pkg st => printpkgNoCache fl imp defaultTemplate pkg 0 st)
    (fun x a b hab => printpkg_sameRun fl imp hidem _ x 0 a b rfl (le_refl 0) hab)
    roots State.init State.init hinit
  unfold mainLoop mainLoopNoCache
  rcases h with ⟨a, b, e1, e2, hs⟩ | ⟨p, e, a, b, e1, e2, hs⟩
  · rw [e1, e2]; exact hs.1
  · rw [e1, e2]; exact hs

theorem caches_do_not_change_output_witness :
    (mainLoop c1Flags c1Importer defaultTemplate ["A", "B", "A"] State.init).final.stdout =
      (mainLoopNoCache c1Flags c1Importer defaultTemplate ["A", "B", "A"]
        State.init).final.stdout :=
  caches_do_not_change_output c1Flags c1Importer ["A", "B", "A"] (by
    intro x p h
    unfold c1Importer at h
    split at h
    · cases h; rfl
    · split at h
      · cases h; rfl
      · split at h
        · cases h; rfl
        · cases h)

end Prdeps
